import Mathlib

/-!
Verification development for the OwlBoard Chat_Service repository.

A shallow embedding of the core chat subsystem: the in-memory connection
registry and broadcast engine of src/websocket_manager.py, the Redis-backed
message and presence stores of src/routes/chat_routes.py, and the
serialization layer of src/models.py.

Modelling conventions:
- Redis is modelled as four association maps (hashes, lists, sets, ttls)
  keyed by strings.  Hash field values are modelled by the type Value, a
  string or a rational number; the redis client encoding layer (all values
  travel as strings on the wire) is an injective encoding of these values
  and is not modelled separately.
- datetime values are modelled by their POSIX timestamp as a rational
  number; datetime.now is read from a fixed clock field of the world.
- uuid4 is modelled by a counter-derived fresh string.
- WebSocket handles are modelled as natural numbers.  A set of handles
  whose transport raises on send is recorded in the closed field.
- Exceptions are modelled by the control flow of the source: operations
  whose exceptions the source catches are total here, and raising parse
  failures are explicit constructors of the inbound frame type.
- pydantic default factories (uuid4, datetime.now) used by from_dict for
  absent fields are passed in as explicit defId / defTs arguments.
-/

/-- A Redis hash field value: either a string or a number. -/
inductive Value where
  | vstr (s : String)
  | vnum (q : Rat)
deriving DecidableEq, Repr

/-- An association list field map, modelling a Python dict or a Redis hash. -/
abbrev Dict := List (String × Value)

section AssocHelpers

variable {K : Type} {V : Type} [DecidableEq K]

/-- Lookup in an association list (first match). -/
def alookup : List (K × V) → K → Option V
  | [], _ => none
  | (k, v) :: rest, k' => if k' = k then some v else alookup rest k'

/-- Replace the binding of a key in place, or append it; this is the update
behaviour of an insertion-ordered Python dict. -/
def aset : List (K × V) → K → V → List (K × V)
  | [], k, v => [(k, v)]
  | (k0, v0) :: rest, k, v =>
      if k = k0 then (k0, v) :: rest else (k0, v0) :: aset rest k v

/-- Remove all bindings of a key. -/
def aerase : List (K × V) → K → List (K × V)
  | [], _ => []
  | (k0, v0) :: rest, k =>
      if k = k0 then aerase rest k else (k0, v0) :: aerase rest k

theorem alookup_aset_self (l : List (K × V)) (k : K) (v : V) :
    alookup (aset l k v) k = some v := by
  induction l with
  | nil => simp [aset, alookup]
  | cons hd tl ih =>
      obtain ⟨k0, v0⟩ := hd
      by_cases h : k = k0 <;> simp [aset, alookup, h, ih]

theorem alookup_aset_ne (l : List (K × V)) (k k' : K) (v : V) (h : k' ≠ k) :
    alookup (aset l k v) k' = alookup l k' := by
  induction l with
  | nil => simp [aset, alookup, h]
  | cons hd tl ih =>
      obtain ⟨k0, v0⟩ := hd
      by_cases h0 : k = k0
      · subst h0; simp [aset, alookup, h]
      · by_cases h1 : k' = k0 <;> simp [aset, alookup, h0, h1, ih]

theorem alookup_aerase_self (l : List (K × V)) (k : K) :
    alookup (aerase l k) k = none := by
  induction l with
  | nil => simp [aerase, alookup]
  | cons hd tl ih =>
      obtain ⟨k0, v0⟩ := hd
      by_cases h : k = k0
      · subst h; simp [aerase, ih]
      · simp [aerase, alookup, h, ih, Ne.symm h]

theorem alookup_aerase_ne (l : List (K × V)) (k k' : K) (h : k' ≠ k) :
    alookup (aerase l k) k' = alookup l k' := by
  induction l with
  | nil => simp [aerase]
  | cons hd tl ih =>
      obtain ⟨k0, v0⟩ := hd
      by_cases h0 : k = k0
      · subst h0; simp [aerase, alookup, h, ih]
      · by_cases h1 : k' = k0 <;> simp [aerase, alookup, h0, h1, ih]

theorem alookup_aerase_none (l : List (K × V)) (k k' : K)
    (h : alookup l k' = none) : alookup (aerase l k) k' = none := by
  by_cases hk : k' = k
  · subst hk; exact alookup_aerase_self l k'
  · rw [alookup_aerase_ne l k k' hk]; exact h

theorem alookup_aerase_some (l : List (K × V)) (k k' : K) (v : V)
    (h : alookup (aerase l k) k' = some v) : alookup l k' = some v := by
  by_cases hk : k' = k
  · subst hk; rw [alookup_aerase_self] at h; exact absurd h (by simp)
  · rwa [alookup_aerase_ne l k k' hk] at h

theorem alookup_aset_none (l : List (K × V)) (k k' : K) (v : V)
    (hk : k' ≠ k) (h : alookup l k' = none) :
    alookup (aset l k v) k' = none := by
  rw [alookup_aset_ne l k k' v hk]; exact h

theorem alookup_append_none (l1 l2 : List (K × V)) (k : K)
    (h : alookup l1 k = none) : alookup (l1 ++ l2) k = alookup l2 k := by
  induction l1 with
  | nil => simp
  | cons hd tl ih =>
      obtain ⟨k0, v0⟩ := hd
      simp only [alookup] at h
      by_cases hk : k = k0
      · rw [if_pos hk] at h; exact absurd h (by simp)
      · rw [if_neg hk] at h
        simpa [alookup, hk] using ih h

theorem aset_eq_append (acc : List (K × V)) (k : K) (v : V)
    (h : alookup acc k = none) : aset acc k v = acc ++ [(k, v)] := by
  induction acc with
  | nil => simp [aset]
  | cons a rest ih =>
      simp only [alookup] at h
      by_cases hh : k = a.1
      · rw [if_pos hh] at h; exact absurd h (by simp)
      · rw [if_neg hh] at h
        obtain ⟨a1, a2⟩ := a
        simp only [] at hh
        simp [aset, hh, ih h]

/-- Folding aset over a list with pairwise distinct keys, starting from the
empty map, reproduces the list itself. -/
theorem foldl_aset_nodup (l : List (K × V)) (h : (l.map Prod.fst).Nodup) :
    l.foldl (fun acc p => aset acc p.1 p.2) [] = l := by
  suffices hgen : ∀ (acc : List (K × V)), (∀ p ∈ l, alookup acc p.1 = none) →
      l.foldl (fun acc p => aset acc p.1 p.2) acc = acc ++ l by
    simpa using hgen [] (by intro p _; rfl)
  induction l with
  | nil => intro acc _; simp
  | cons hd tl ih =>
      intro acc hacc
      simp only [List.map, List.nodup_cons] at h
      have htl : (tl.map Prod.fst).Nodup := h.2
      have hnone : alookup acc hd.1 = none := hacc hd (List.mem_cons_self _ _)
      have haset : aset acc hd.1 hd.2 = acc ++ [(hd.1, hd.2)] :=
        aset_eq_append acc hd.1 hd.2 hnone
      have hstep : ∀ p ∈ tl, alookup (acc ++ [(hd.1, hd.2)]) p.1 = none := by
        intro p hp
        have hne : p.1 ≠ hd.1 := by
          intro heq
          exact h.1 (by rw [← heq]; exact List.mem_map_of_mem Prod.fst hp)
        have hpn : alookup acc p.1 = none := hacc p (List.mem_cons_of_mem _ hp)
        rw [alookup_append_none _ _ _ hpn]
        simp [alookup, hne]
      have := ih htl (acc ++ [(hd.1, hd.2)]) hstep
      simp only [List.foldl_cons, haset, this]
      simp

end AssocHelpers

/-! ### Enums from src/models.py -/

/-- MessageType enum: text, image, file, system. -/
inductive MessageType where
  | text | image | file | system
deriving DecidableEq, Repr

/-- The string value of a MessageType member. -/
def MessageType.value : MessageType → String
  | .text => "text"
  | .image => "image"
  | .file => "file"
  | .system => "system"

/-- Coercion of a string to a MessageType; none models the ValueError that
the MessageType constructor raises for an unknown value. -/
def MessageType.ofString : String → Option MessageType
  | "text" => some .text
  | "image" => some .image
  | "file" => some .file
  | "system" => some .system
  | _ => none

theorem messageType_ofString_value (t : MessageType) :
    MessageType.ofString t.value = some t := by
  cases t <;> rfl

/-- UserStatus enum: online, offline, away. -/
inductive UserStatus where
  | online | offline | away
deriving DecidableEq, Repr

/-- The string value of a UserStatus member. -/
def UserStatus.value : UserStatus → String
  | .online => "online"
  | .offline => "offline"
  | .away => "away"

/-- Coercion of a string to a UserStatus, failing for unknown values. -/
def UserStatus.ofString : String → Option UserStatus
  | "online" => some .online
  | "offline" => some .offline
  | "away" => some .away
  | _ => none

theorem userStatus_ofString_value (s : UserStatus) :
    UserStatus.ofString s.value = some s := by
  cases s <;> rfl

/-! ### Settings from src/config.py (chat settings only) -/

/-- The chat-related fields of the Settings class. -/
structure Settings where
  max_message_length : Nat
  message_history_limit : Nat
deriving DecidableEq, Repr

/-- The default Settings values from src/config.py. -/
def defaultSettings : Settings := ⟨1000, 50⟩

/-! ### ChatMessage from src/models.py -/

/-- The ChatMessage pydantic model.  Timestamps are POSIX seconds as
rationals. -/
structure ChatMessage where
  id : String
  dashboard_id : String
  user_id : String
  username : String
  content : String
  message_type : MessageType
  timestamp : Rat
  edited_at : Option Rat
  is_deleted : Bool
  reply_to : Option String
deriving DecidableEq, Repr

/-- ChatMessage.to_dict: the Redis hash representation.  The boolean
is_deleted is written as the literal string 1 or 0; optional fields are
added only when present. -/
def ChatMessage.to_dict (m : ChatMessage) : Dict :=
  [("id", .vstr m.id),
   ("dashboard_id", .vstr m.dashboard_id),
   ("user_id", .vstr m.user_id),
   ("username", .vstr m.username),
   ("content", .vstr m.content),
   ("message_type", .vstr m.message_type.value),
   ("timestamp", .vnum m.timestamp),
   ("is_deleted", .vstr (if m.is_deleted then "1" else "0"))]
  ++ (match m.edited_at with
      | some t => [("edited_at", .vnum t)]
      | none => [])
  ++ (match m.reply_to with
      | some r => [("reply_to", .vstr r)]
      | none => [])

/-- ChatMessage.from_dict followed by pydantic construction cls(**data).
Numeric timestamp entries are converted to datetimes, the is_deleted string
is compared to the literal 1, required string fields must be present as
strings, content is validated against the pydantic max_length of 1000, and
message_type is coerced through the MessageType enum.  defId and defTs model
the pydantic default factories (uuid4 and datetime.now) that fill in absent
id and timestamp fields. -/
def ChatMessage.from_dict (defId : String) (defTs : Rat) (d : Dict) :
    Option ChatMessage := do
  let idv ← match alookup d "id" with
    | none => some defId
    | some (.vstr s) => some s
    | some _ => none
  let did ← match alookup d "dashboard_id" with
    | some (.vstr s) => some s
    | _ => none
  let uid ← match alookup d "user_id" with
    | some (.vstr s) => some s
    | _ => none
  let uname ← match alookup d "username" with
    | some (.vstr s) => some s
    | _ => none
  let content ← match alookup d "content" with
    | some (.vstr s) => if s.length ≤ 1000 then some s else none
    | _ => none
  let mt ← match alookup d "message_type" with
    | none => some MessageType.text
    | some (.vstr s) => MessageType.ofString s
    | some _ => none
  let ts ← match alookup d "timestamp" with
    | none => some defTs
    | some (.vnum q) => some q
    | some _ => none
  let ed ← match alookup d "edited_at" with
    | none => some none
    | some (.vnum q) => some (some q)
    | some _ => none
  let deleted : Bool := match alookup d "is_deleted" with
    | none => false
    | some v => v = .vstr "1"
  let rt ← match alookup d "reply_to" with
    | none => some none
    | some (.vstr s) => some (some s)
    | some _ => none
  pure ⟨idv, did, uid, uname, content, mt, ts, ed, deleted, rt⟩

/-- Redis key of a message: message:(dashboard):(id). -/
def messageKey (dashboard_id msgId : String) : String :=
  "message:" ++ dashboard_id ++ ":" ++ msgId

/-- Redis key of the per-room ordered message id list: messages:(dashboard). -/
def listKey (dashboard_id : String) : String :=
  "messages:" ++ dashboard_id

/-! ### ConnectedUser from src/models.py -/

/-- The ConnectedUser pydantic model. -/
structure ConnectedUser where
  user_id : String
  dashboard_id : String
  username : String
  status : UserStatus
  connected_at : Rat
  last_seen : Rat
  socket_id : Option String
deriving DecidableEq, Repr

/-- ConnectedUser.to_dict: the Redis hash representation; socket_id is
added only when present. -/
def ConnectedUser.to_dict (u : ConnectedUser) : Dict :=
  [("user_id", .vstr u.user_id),
   ("dashboard_id", .vstr u.dashboard_id),
   ("username", .vstr u.username),
   ("status", .vstr u.status.value),
   ("connected_at", .vnum u.connected_at),
   ("last_seen", .vnum u.last_seen)]
  ++ (match u.socket_id with
      | some s => [("socket_id", .vstr s)]
      | none => [])

/-- ConnectedUser.from_dict followed by pydantic construction.  defTs models
the datetime.now default factories of connected_at and last_seen. -/
def ConnectedUser.from_dict (defTs : Rat) (d : Dict) : Option ConnectedUser := do
  let uid ← match alookup d "user_id" with
    | some (.vstr s) => some s
    | _ => none
  let did ← match alookup d "dashboard_id" with
    | some (.vstr s) => some s
    | _ => none
  let uname ← match alookup d "username" with
    | some (.vstr s) => some s
    | _ => none
  let st ← match alookup d "status" with
    | none => some UserStatus.online
    | some (.vstr s) => UserStatus.ofString s
    | some _ => none
  let ca ← match alookup d "connected_at" with
    | none => some defTs
    | some (.vnum q) => some q
    | some _ => none
  let ls ← match alookup d "last_seen" with
    | none => some defTs
    | some (.vnum q) => some q
    | some _ => none
  let sid ← match alookup d "socket_id" with
    | none => some none
    | some (.vstr s) => some (some s)
    | some _ => none
  pure ⟨uid, did, uname, st, ca, ls, sid⟩

/-- Redis key of a presence record: user:(dashboard):(user). -/
def userKey (dashboard_id user_id : String) : String :=
  "user:" ++ dashboard_id ++ ":" ++ user_id

/-- Redis key of the per-room connected user set:
connected_users:(dashboard). -/
def connectedSetKey (dashboard_id : String) : String :=
  "connected_users:" ++ dashboard_id

/-! ### The world state: in-memory registry, Redis, transports, observables -/

/-- The reverse-lookup record of ConnectionManager.connection_info. -/
structure ConnInfo where
  dashboard_id : String
  user_id : String
  username : String
deriving DecidableEq, Repr

/-- Serialized outbound frames (the json.dumps payloads), modelled
abstractly by their constructors; serialization is injective. -/
inductive Payload where
  | chatMessage (id dashboard_id user_id username content : String)
      (message_type : MessageType) (timestamp : Rat) (reply_to : Option String)
  | userJoined (username : String) (timestamp : Rat)
  | userLeft (username : String) (timestamp : Rat)
  | typing (user_id username : String) (is_typing : Bool) (timestamp : Rat)
  | messagesCleared (dashboard_id : String) (cleared_count : Nat) (timestamp : Rat)
deriving DecidableEq, Repr

/-- The whole mutable state: the ConnectionManager fields (active, info),
the Redis database (hashes, lists, sets, ttls), the delivery log (sent), the
set of handles whose transport raises on send (closed), logs of the
user_joined and user_left notifications that were issued, the fixed clock
read by datetime.now, and the uuid counter. -/
structure World where
  active : List (String × List (String × Nat))
  info : List (Nat × ConnInfo)
  hashes : List (String × Dict)
  lists : List (String × List String)
  sets : List (String × List String)
  ttls : List (String × Nat)
  sent : List (Nat × Payload)
  closed : List Nat
  joinedLog : List (String × String)
  leftLog : List (String × String)
  clock : Rat
  nextId : Nat
deriving DecidableEq, Repr

/-- The world with nothing registered and an empty store. -/
def emptyWorld : World := ⟨[], [], [], [], [], [], [], [], [], [], 0, 0⟩

/-! ### Redis command semantics -/

/-- Does any key of this name exist (any type)? -/
def keyExists (w : World) (k : String) : Bool :=
  (alookup w.hashes k).isSome || (alookup w.lists k).isSome ||
    (alookup w.sets k).isSome

/-- redis.hset key mapping: merge the given fields into the hash at key,
creating it if absent. -/
def hsetW (w : World) (k : String) (m : Dict) : World :=
  let old := (alookup w.hashes k).getD []
  { w with hashes := aset w.hashes k (m.foldl (fun d p => aset d p.1 p.2) old) }

/-- redis.hgetall key: all fields of the hash, or the empty dict. -/
def hgetallW (w : World) (k : String) : Dict :=
  (alookup w.hashes k).getD []

/-- The stored list at a key, empty when the key is absent. -/
def lookupListD (w : World) (k : String) : List String :=
  (alookup w.lists k).getD []

/-- redis.rpush key v: append to the tail of the list at key. -/
def rpushW (w : World) (k : String) (v : String) : World :=
  { w with lists := aset w.lists k (lookupListD w k ++ [v]) }

/-- Normalize a Redis list index: negative indices count from the tail. -/
def normIdx (len : Nat) (i : Int) : Int :=
  if i < 0 then (len : Int) + i else i

/-- The inclusive slice semantics shared by LRANGE and LTRIM: clamp the
normalized start below by 0 and the normalized stop above by len - 1; an
empty range yields the empty list. -/
def redisSlice (l : List String) (start stop : Int) : List String :=
  let s := max (normIdx l.length start) 0
  let e := min (normIdx l.length stop) ((l.length : Int) - 1)
  if s > e then [] else (l.drop s.toNat).take (e - s + 1).toNat

/-- redis.lrange key start stop. -/
def lrangeW (w : World) (k : String) (start stop : Int) : List String :=
  redisSlice (lookupListD w k) start stop

/-- redis.ltrim key start stop: keep only the slice; Redis removes the key
when the result is empty. -/
def ltrimW (w : World) (k : String) (start stop : Int) : World :=
  let newl := redisSlice (lookupListD w k) start stop
  if newl = [] then { w with lists := aerase w.lists k }
  else { w with lists := aset w.lists k newl }

/-- The members of the set at a key. -/
def smembersW (w : World) (k : String) : List String :=
  (alookup w.sets k).getD []

/-- redis.sadd key m: add a member to the set at key. -/
def saddW (w : World) (k : String) (m : String) : World :=
  let old := smembersW w k
  if m ∈ old then w else { w with sets := aset w.sets k (old ++ [m]) }

/-- redis.srem key m: remove a member from the set at key. -/
def sremW (w : World) (k : String) (m : String) : World :=
  match alookup w.sets k with
  | none => w
  | some old => { w with sets := aset w.sets k (old.filter (fun x => x ≠ m)) }

/-- redis.delete key: remove the key of any type, returning the number of
keys removed (0 or 1). -/
def redisDel (w : World) (k : String) : World × Nat :=
  let n := if keyExists w k then 1 else 0
  ({ w with hashes := aerase w.hashes k, lists := aerase w.lists k,
            sets := aerase w.sets k, ttls := aerase w.ttls k }, n)

/-- redis.expire key seconds: record a ttl on an existing key. -/
def expireW (w : World) (k : String) (seconds : Nat) : World :=
  if keyExists w k then { w with ttls := aset w.ttls k seconds } else w

/-! ### ConnectionManager (src/websocket_manager.py) -/

/-- Lookup the registered handle for (dashboard, user). -/
def lookupConn (w : World) (d u : String) : Option Nat :=
  (alookup w.active d).bind (fun conns => alookup conns u)

/-- The truthiness-guarded exclusion test of broadcast_to_dashboard:
`if exclude_user_id and user_id == exclude_user_id: continue`; an empty
string exclude is falsy and excludes nobody. -/
def excludedBy (ex : Option String) (u : String) : Bool :=
  match ex with
  | none => false
  | some e => if e = "" then false else u = e

/-- The send loop of broadcast_to_dashboard: iterate the room connections
in order; an excluded user is skipped; a send to a closed transport raises,
is caught, and the handle is collected for cleanup; a successful send is
recorded in the delivery log.  Returns the updated world and the collected
failed handles in iteration order. -/
def sendLoop (w : World) (msg : Payload) (ex : Option String) :
    List (String × Nat) → World × List Nat
  | [] => (w, [])
  | (u, c) :: rest =>
      if excludedBy ex u then sendLoop w msg ex rest
      else if c ∈ w.closed then
        let p := sendLoop w msg ex rest
        (p.1, c :: p.2)
      else sendLoop { w with sent := w.sent ++ [(c, msg)] } msg ex rest

/-- The body of broadcast_to_dashboard, parameterized by the disconnect
procedure used to clean up failed handles. -/
def broadcastWith (disc : World → Nat → World) (w : World) (d : String)
    (msg : Payload) (ex : Option String) : World :=
  match alookup w.active d with
  | none => w
  | some conns =>
      let p := sendLoop w msg ex conns
      p.2.foldl disc p.1

/-- The state mutations of disconnect before the user_left broadcast:
remove the (dashboard, user) entry from active_connections (dropping the
dashboard key if it becomes empty), remove the reverse-lookup entry, delete
the presence hash, remove the user from the room set, and record that a
user_left notification is being issued. -/
def disconnectCore (w : World) (ws : Nat) (ci : ConnInfo) : World :=
  let d := ci.dashboard_id
  let u := ci.user_id
  let w1 : World :=
    { w with active :=
        match alookup w.active d with
        | none => w.active
        | some conns =>
            let conns' := aerase conns u
            if conns' = [] then aerase w.active d
            else aset w.active d conns' }
  let w2 : World := { w1 with info := aerase w1.info ws }
  let w3 : World := (redisDel w2 (userKey d u)).1
  let w4 : World := sremW w3 (connectedSetKey d) u
  { w4 with leftLog := w4.leftLog ++ [(d, ci.username)] }

/-- ConnectionManager.disconnect, with a fuel bound on the recursion depth
of the disconnect / broadcast_user_left cascade (each level of the cascade
removes one registered handle, so any fuel above the registry size is
enough).  A handle with no connection_info entry is a no-op (the not-found
case); otherwise perform the cleanup of disconnectCore and broadcast
user_left to the room. -/
def disconnectF : Nat → World → Nat → World
  | 0, w, _ => w
  | fuel + 1, w, ws =>
      match alookup w.info ws with
      | none => w
      | some ci =>
          let w5 := disconnectCore w ws ci
          broadcastWith (fun a x => disconnectF fuel a x) w5 ci.dashboard_id
            (Payload.userLeft ci.username w5.clock) none

/-- broadcast_to_dashboard at a given fuel. -/
def broadcastF (fuel : Nat) (w : World) (d : String) (msg : Payload)
    (ex : Option String) : World :=
  broadcastWith (fun a x => disconnectF fuel a x) w d msg ex

/-- Fuel sufficient for any cascade starting from this world. -/
def enoughFuel (w : World) : Nat := w.info.length + 2

/-- ConnectionManager.disconnect. -/
def disconnect (w : World) (ws : Nat) : World := disconnectF (enoughFuel w) w ws

/-- ConnectionManager.broadcast_to_dashboard. -/
def broadcast_to_dashboard (w : World) (d : String) (msg : Payload)
    (ex : Option String) : World :=
  broadcastF (enoughFuel w) w d msg ex

/-- ConnectionManager.broadcast_user_joined. -/
def broadcast_user_joined (w : World) (d n : String) : World :=
  broadcast_to_dashboard { w with joinedLog := w.joinedLog ++ [(d, n)] } d
    (Payload.userJoined n w.clock) none

/-- ConnectionManager.broadcast_typing: excludes the typer. -/
def broadcast_typing (w : World) (d u n : String) (is_typing : Bool) : World :=
  broadcast_to_dashboard w d (Payload.typing u n is_typing w.clock) (some u)

/-- The chat_message payload of ConnectionManager.broadcast_message. -/
def chatPayload (m : ChatMessage) : Payload :=
  .chatMessage m.id m.dashboard_id m.user_id m.username m.content
    m.message_type m.timestamp m.reply_to

/-- ConnectionManager.broadcast_message: fan a chat message out to the
whole room with no exclusion. -/
def broadcast_message (w : World) (m : ChatMessage) : World :=
  broadcast_to_dashboard w m.dashboard_id (chatPayload m) none

/-- ConnectionManager.connect: accept, register the handle under
(dashboard, user) replacing any prior handle, record the reverse lookup,
write the presence record (with socket_id) to Redis with a 1 hour ttl, add
the user to the room set, and broadcast user_joined. -/
def connect (w : World) (ws : Nat) (d u n : String) : World :=
  let conns := (alookup w.active d).getD []
  let w1 : World :=
    { w with active := aset w.active d (aset conns u ws),
             info := aset w.info ws ⟨d, u, n⟩ }
  let cu : ConnectedUser := ⟨u, d, n, .online, w1.clock, w1.clock, some (toString ws)⟩
  let w2 := hsetW w1 (userKey d u) cu.to_dict
  let w3 := saddW w2 (connectedSetKey d) u
  let w4 := expireW w3 (userKey d u) (60 * 60)
  broadcast_user_joined w4 d n

/-! ### Redis helper functions (src/routes/chat_routes.py) -/

/-- save_message_to_redis: write the message hash, push its id to the tail
of the room list, trim the list to the most recent message_history_limit
entries, and set a 30 day ttl on the hash. -/
def save_message_to_redis (s : Settings) (w : World) (m : ChatMessage) : World :=
  let key := messageKey m.dashboard_id m.id
  let w1 := hsetW w key m.to_dict
  let w2 := rpushW w1 (listKey m.dashboard_id) m.id
  let w3 := ltrimW w2 (listKey m.dashboard_id)
    (-(s.message_history_limit : Int)) (-1)
  expireW w3 key (30 * 24 * 60 * 60)

/-- Resolve one listed message id: read its hash, treat an empty hash as
missing, and parse it, treating a parse failure as missing. -/
def resolveMessage (w : World) (d : String) (defId : String) (defTs : Rat)
    (msgId : String) : Option ChatMessage :=
  let dct := hgetallW w (messageKey d msgId)
  if dct = [] then none else ChatMessage.from_dict defId defTs dct

/-- get_messages_from_redis: read the ids at list positions
skip .. skip + limit - 1 and resolve each, skipping missing or unparsable
entries. -/
def get_messages_from_redis (w : World) (d : String) (limit skip : Int)
    (defId : String) (defTs : Rat) : List ChatMessage :=
  (lrangeW w (listKey d) skip (skip + limit - 1)).filterMap
    (resolveMessage w d defId defTs)

/-- save_connected_user_to_redis: write the presence hash, add the user to
the room set, and set a 1 hour ttl on the hash. -/
def save_connected_user_to_redis (w : World) (cu : ConnectedUser) : World :=
  let key := userKey cu.dashboard_id cu.user_id
  let w1 := hsetW w key cu.to_dict
  let w2 := saddW w1 (connectedSetKey cu.dashboard_id) cu.user_id
  expireW w2 key (60 * 60)

/-- Resolve one set member: read its presence hash, treating an empty hash
or a parse failure as missing. -/
def resolveUser (w : World) (d : String) (defTs : Rat) (uid : String) :
    Option ConnectedUser :=
  let dct := hgetallW w (userKey d uid)
  if dct = [] then none else ConnectedUser.from_dict defTs dct

/-- get_connected_users_from_redis: read all members of the room set and
resolve each, skipping missing or unparsable entries. -/
def get_connected_users_from_redis (w : World) (d : String) (defTs : Rat) :
    List ConnectedUser :=
  (smembersW w (connectedSetKey d)).filterMap (resolveUser w d defTs)

/-- remove_user_from_redis: delete the presence hash and remove the user
from the room set. -/
def remove_user_from_redis (w : World) (d u : String) : World :=
  sremW (redisDel w (userKey d u)).1 (connectedSetKey d) u

/-- clear_all_messages (DELETE /chat/messages): read the whole id list,
delete each message key counting the keys that existed, delete the list
key, and broadcast messages_cleared with the count. -/
def clear_all_messages (w : World) (d : String) : World × Nat :=
  let ids := lrangeW w (listKey d) 0 (-1)
  let p := ids.foldl
    (fun (acc : World × Nat) msgId =>
      let r := redisDel acc.1 (messageKey d msgId)
      (r.1, acc.2 + r.2)) (w, 0)
  let w2 := (redisDel p.1 (listKey d)).1
  let w3 := broadcast_to_dashboard w2 d
    (Payload.messagesCleared d p.2 w2.clock) none
  (w3, p.2)

/-! ### Protocol handler (websocket_endpoint in src/routes/chat_routes.py) -/

/-- The data object of an inbound frame (message_data.get("data", {})),
with the fields the handlers read. -/
structure FrameData where
  content : Option String
  message : Option String
  message_type : Option String
  reply_to : Option String
  is_typing : Option Bool
deriving DecidableEq, Repr

/-- One inbound frame: malformed stands for a frame whose json.loads (or
field access on a non-dict result) raises; frame carries the type tag and
the data object. -/
inductive InFrame where
  | malformed
  | frame (ty : Option String) (fd : FrameData)
deriving DecidableEq, Repr

/-- The strip of leading and trailing whitespace performed by the Python
str.strip call, implemented over the character list so that it is fully
computable. -/
def pyStrip (s : String) : String :=
  String.mk (((s.data.dropWhile (fun c => c.isWhitespace)).reverse.dropWhile
    (fun c => c.isWhitespace)).reverse)

/-- The content extraction of handle_websocket_message:
`message_data.get("content") or message_data.get("message", "")` — a
missing or empty content falls back to the legacy message alias. -/
def effectiveContent (fd : FrameData) : String :=
  match fd.content with
  | some c => if c = "" then fd.message.getD "" else c
  | none => fd.message.getD ""

/-- The fresh uuid for the next created message. -/
def genId (w : World) : String := "uuid-" ++ toString w.nextId

/-- handle_websocket_message: trim the effective content and drop the frame
silently when it is empty or longer than the configured maximum; a ValueError
from the MessageType coercion, or a pydantic validation error from the
ChatMessage constructor (content over its hard max_length of 1000), is
caught by the surrounding except and also drops the frame; otherwise create
the message, persist it, and broadcast it to the whole room. -/
def handle_websocket_message (s : Settings) (d u n : String) (fd : FrameData)
    (w : World) : World :=
  let content := pyStrip (effectiveContent fd)
  if content = "" ∨ s.max_message_length < content.length then w
  else
    match MessageType.ofString (fd.message_type.getD "text") with
    | none => w
    | some mt =>
        if 1000 < content.length then w
        else
          let m : ChatMessage :=
            ⟨genId w, d, u, n, content, mt, w.clock, none, false, fd.reply_to⟩
          let w1 : World := { w with nextId := w.nextId + 1 }
          let w2 := save_message_to_redis s w1 m
          broadcast_message w2 m

/-- The receive loop of websocket_endpoint in the Active state.  The input
list is the sequence of inbound frames; its end models the client closing
the transport (receive_text raising WebSocketDisconnect).  A malformed
frame raises out of the per-frame dispatch into the outer except handler,
which disconnects the handle and removes the user from Redis — the loop
does not continue.  A chat_message frame is handled inside its own
try/except, so the loop always continues after it; a typing frame
broadcasts a typing event with is_typing defaulting to false; any other
type is logged and ignored. -/
def wsLoop (s : Settings) (ws : Nat) (d u n : String) (w : World) :
    List InFrame → World
  | [] => remove_user_from_redis (disconnect w ws) d u
  | InFrame.malformed :: _ => remove_user_from_redis (disconnect w ws) d u
  | InFrame.frame ty fd :: rest =>
      if ty = some "chat_message" then
        wsLoop s ws d u n (handle_websocket_message s d u n fd w) rest
      else if ty = some "typing" then
        wsLoop s ws d u n (broadcast_typing w d u n (fd.is_typing.getD false)) rest
      else
        wsLoop s ws d u n w rest

/-- websocket_endpoint: reject an empty dashboard or user id, otherwise
connect the handle, save the connected user to Redis a second time
(without socket_id), and enter the receive loop. -/
def websocket_endpoint (s : Settings) (w : World) (ws : Nat) (d u n : String)
    (frames : List InFrame) : World :=
  if d = "" ∨ u = "" then w
  else
    let w1 := connect w ws d u n
    let cu : ConnectedUser := ⟨u, d, n, .online, w1.clock, w1.clock, none⟩
    let w2 := save_connected_user_to_redis w1 cu
    wsLoop s ws d u n w2 frames

/-! ### Properties of the send loop -/

theorem sendLoop_world_eq (msg : Payload) (ex : Option String) :
    ∀ (l : List (String × Nat)) (w : World),
      ∃ extra, (sendLoop w msg ex l).1 = { w with sent := w.sent ++ extra } := by
  intro l
  induction l with
  | nil => intro w; exact ⟨[], by simp [sendLoop]⟩
  | cons hd tl ih =>
      intro w
      obtain ⟨u, c⟩ := hd
      by_cases hex : excludedBy ex u
      · simpa [sendLoop, hex] using ih w
      · by_cases hcl : c ∈ w.closed
        · simpa [sendLoop, hex, hcl] using ih w
        · obtain ⟨extra, hw⟩ := ih { w with sent := w.sent ++ [(c, msg)] }
          exact ⟨(c, msg) :: extra, by simp [sendLoop, hex, hcl, hw]⟩

theorem sendLoop_fields (msg : Payload) (ex : Option String)
    (l : List (String × Nat)) (w : World) :
    (sendLoop w msg ex l).1.active = w.active ∧
    (sendLoop w msg ex l).1.info = w.info ∧
    (sendLoop w msg ex l).1.hashes = w.hashes ∧
    (sendLoop w msg ex l).1.lists = w.lists ∧
    (sendLoop w msg ex l).1.sets = w.sets ∧
    (sendLoop w msg ex l).1.ttls = w.ttls ∧
    (sendLoop w msg ex l).1.closed = w.closed ∧
    (sendLoop w msg ex l).1.joinedLog = w.joinedLog ∧
    (sendLoop w msg ex l).1.leftLog = w.leftLog ∧
    (sendLoop w msg ex l).1.clock = w.clock := by
  obtain ⟨extra, hw⟩ := sendLoop_world_eq msg ex l w
  rw [hw]
  exact ⟨rfl, rfl, rfl, rfl, rfl, rfl, rfl, rfl, rfl, rfl⟩

theorem sendLoop_sent_mono (msg : Payload) (ex : Option String)
    (l : List (String × Nat)) (w : World) (p : Nat × Payload)
    (h : p ∈ w.sent) : p ∈ (sendLoop w msg ex l).1.sent := by
  obtain ⟨extra, hw⟩ := sendLoop_world_eq msg ex l w
  rw [hw]
  exact List.mem_append_left _ h

/-- Every delivery that the loop adds carries the broadcast payload. -/
theorem sendLoop_sent_char (msg : Payload) (ex : Option String) :
    ∀ (l : List (String × Nat)) (w : World) (p : Nat × Payload),
      p ∈ (sendLoop w msg ex l).1.sent → p ∈ w.sent ∨ p.2 = msg := by
  intro l
  induction l with
  | nil => intro w p hp; exact Or.inl (by simpa [sendLoop] using hp)
  | cons hd tl ih =>
      intro w p hp
      obtain ⟨u, c⟩ := hd
      by_cases hex : excludedBy ex u
      · exact ih w p (by simpa [sendLoop, hex] using hp)
      · by_cases hcl : c ∈ w.closed
        · exact ih w p (by simpa [sendLoop, hex, hcl] using hp)
        · have hp' : p ∈ (sendLoop { w with sent := w.sent ++ [(c, msg)] }
              msg ex tl).1.sent := by simpa [sendLoop, hex, hcl] using hp
          rcases ih _ p hp' with h | h
          · rcases List.mem_append.mp h with h | h
            · exact Or.inl h
            · simp only [List.mem_singleton] at h
              exact Or.inr (by rw [h])
          · exact Or.inr h

/-- A non-excluded recipient with a live transport receives the payload. -/
theorem sendLoop_delivers (msg : Payload) (ex : Option String) :
    ∀ (l : List (String × Nat)) (w : World) (u : String) (c : Nat),
      (u, c) ∈ l → excludedBy ex u = false → c ∉ w.closed →
      (c, msg) ∈ (sendLoop w msg ex l).1.sent := by
  intro l
  induction l with
  | nil => intro w u c hm; exact absurd hm (List.not_mem_nil _)
  | cons hd tl ih =>
      intro w u c hm hex hcl
      obtain ⟨u0, c0⟩ := hd
      rcases List.mem_cons.mp hm with heq | hm'
      · obtain ⟨h1, h2⟩ := Prod.mk.injEq .. ▸ heq
        subst h1; subst h2
        simp only [sendLoop]
        rw [if_neg (by simp [hex]), if_neg hcl]
        exact sendLoop_sent_mono _ _ _ _ _ (by simp)
      · by_cases hex0 : excludedBy ex u0
        · simpa [sendLoop, hex0] using ih w u c hm' hex hcl
        · by_cases hcl0 : c0 ∈ w.closed
          · simpa [sendLoop, hex0, hcl0] using ih w u c hm' hex hcl
          · have := ih { w with sent := w.sent ++ [(c0, msg)] } u c hm' hex
              (by simpa using hcl)
            simpa [sendLoop, hex0, hcl0] using this

/-- A non-excluded recipient whose transport is closed is collected in the
failed list. -/
theorem sendLoop_fails (msg : Payload) (ex : Option String) :
    ∀ (l : List (String × Nat)) (w : World) (u : String) (c : Nat),
      (u, c) ∈ l → excludedBy ex u = false → c ∈ w.closed →
      c ∈ (sendLoop w msg ex l).2 := by
  intro l
  induction l with
  | nil => intro w u c hm; exact absurd hm (List.not_mem_nil _)
  | cons hd tl ih =>
      intro w u c hm hex hcl
      obtain ⟨u0, c0⟩ := hd
      rcases List.mem_cons.mp hm with heq | hm'
      · obtain ⟨h1, h2⟩ := Prod.mk.injEq .. ▸ heq
        subst h1; subst h2
        simp [sendLoop, hex, hcl]
      · by_cases hex0 : excludedBy ex u0
        · simpa [sendLoop, hex0] using ih w u c hm' hex hcl
        · by_cases hcl0 : c0 ∈ w.closed
          · simp only [sendLoop, hex0, Bool.false_eq_true, if_false, hcl0,
              if_true, List.mem_cons]
            exact Or.inr (ih w u c hm' hex hcl)
          · have := ih { w with sent := w.sent ++ [(c0, msg)] } u c hm' hex
              (by simpa using hcl)
            simpa [sendLoop, hex0, hcl0] using this

/-- If every pair in the room that carries a given handle is excluded, the
loop never delivers anything to that handle. -/
theorem sendLoop_excluded_not_sent (msg : Payload) (ex : Option String) :
    ∀ (l : List (String × Nat)) (w : World) (c : Nat) (q : Payload),
      (∀ u, (u, c) ∈ l → excludedBy ex u = true) →
      (c, q) ∈ (sendLoop w msg ex l).1.sent → (c, q) ∈ w.sent := by
  intro l
  induction l with
  | nil => intro w c q _ hp; simpa [sendLoop] using hp
  | cons hd tl ih =>
      intro w c q hall hp
      obtain ⟨u0, c0⟩ := hd
      have hall' : ∀ u, (u, c) ∈ tl → excludedBy ex u = true := by
        intro u hu; exact hall u (List.mem_cons_of_mem _ hu)
      by_cases hex0 : excludedBy ex u0
      · exact ih w c q hall' (by simpa [sendLoop, hex0] using hp)
      · have hne : c0 ≠ c := by
          intro heq
          exact hex0 (hall u0 (by rw [heq]; exact List.mem_cons_self _ _))
        by_cases hcl0 : c0 ∈ w.closed
        · exact ih w c q hall' (by simpa [sendLoop, hex0, hcl0] using hp)
        · have hp' := ih { w with sent := w.sent ++ [(c0, msg)] } c q hall'
            (by simpa [sendLoop, hex0, hcl0] using hp)
          rcases List.mem_append.mp hp' with h | h
          · exact h
          · simp only [List.mem_singleton, Prod.mk.injEq] at h
            exact absurd h.1.symm hne

/-! ### Preservation: disconnect and broadcast only remove registrations
and store entries, and only append to the delivery and notification logs -/

/-- The monotone facts preserved by every disconnect / broadcast step:
absent registrations, presence records and store keys stay absent,
surviving reverse-lookup entries are unchanged, deliveries and left
notifications are only appended, and the transport health and clock are
untouched. -/
structure Shrinks (w w' : World) : Prop where
  info_none : ∀ c, alookup w.info c = none → alookup w'.info c = none
  info_some : ∀ c ci, alookup w'.info c = some ci → alookup w.info c = some ci
  conn_none : ∀ d u, lookupConn w d u = none → lookupConn w' d u = none
  hash_none : ∀ k, alookup w.hashes k = none → alookup w'.hashes k = none
  list_none : ∀ k, alookup w.lists k = none → alookup w'.lists k = none
  set_not_mem : ∀ k m, m ∉ smembersW w k → m ∉ smembersW w' k
  sent_mono : ∀ p, p ∈ w.sent → p ∈ w'.sent
  left_mono : ∀ e, e ∈ w.leftLog → e ∈ w'.leftLog
  closed_eq : w'.closed = w.closed
  clock_eq : w'.clock = w.clock

theorem Shrinks.refl (w : World) : Shrinks w w :=
  ⟨fun _ h => h, fun _ _ h => h, fun _ _ h => h, fun _ h => h, fun _ h => h,
   fun _ _ h => h, fun _ h => h, fun _ h => h, rfl, rfl⟩

theorem Shrinks.trans {w1 w2 w3 : World} (a : Shrinks w1 w2)
    (b : Shrinks w2 w3) : Shrinks w1 w3 :=
  ⟨fun c h => b.info_none c (a.info_none c h),
   fun c ci h => a.info_some c ci (b.info_some c ci h),
   fun d u h => b.conn_none d u (a.conn_none d u h),
   fun k h => b.hash_none k (a.hash_none k h),
   fun k h => b.list_none k (a.list_none k h),
   fun k m h => b.set_not_mem k m (a.set_not_mem k m h),
   fun p h => b.sent_mono p (a.sent_mono p h),
   fun e h => b.left_mono e (a.left_mono e h),
   b.closed_eq.trans a.closed_eq,
   b.clock_eq.trans a.clock_eq⟩

theorem shrinks_sendLoop (w : World) (msg : Payload) (ex : Option String)
    (l : List (String × Nat)) : Shrinks w (sendLoop w msg ex l).1 := by
  obtain ⟨f1, f2, f3, f4, f5, f6, f7, f8, f9, f10⟩ := sendLoop_fields msg ex l w
  exact ⟨fun c h => by rw [f2]; exact h,
         fun c ci h => by rwa [f2] at h,
         fun d u h => by unfold lookupConn; rw [f1]; exact h,
         fun k h => by rw [f3]; exact h,
         fun k h => by rw [f4]; exact h,
         fun k m h => by unfold smembersW; rw [f5]; exact h,
         fun p h => sendLoop_sent_mono msg ex l w p h,
         fun e h => by rw [f9]; exact h,
         f7, f10⟩

theorem shrinks_foldl {f : World → Nat → World}
    (hf : ∀ a x, Shrinks a (f a x)) :
    ∀ (l : List Nat) (w : World), Shrinks w (l.foldl f w) := by
  intro l
  induction l with
  | nil => intro w; exact Shrinks.refl w
  | cons hd tl ih =>
      intro w
      exact (hf w hd).trans (ih (f w hd))

theorem shrinks_broadcastWith {disc : World → Nat → World}
    (hdisc : ∀ a x, Shrinks a (disc a x)) (w : World) (d : String)
    (msg : Payload) (ex : Option String) :
    Shrinks w (broadcastWith disc w d msg ex) := by
  unfold broadcastWith
  cases h : alookup w.active d with
  | none => exact Shrinks.refl w
  | some conns =>
      exact (shrinks_sendLoop w msg ex conns).trans
        (shrinks_foldl hdisc (sendLoop w msg ex conns).2
          (sendLoop w msg ex conns).1)

/-- Replacing the active map with one holding no new registrations shrinks
the world. -/
theorem shrinks_active_update (w : World)
    (A : List (String × List (String × Nat)))
    (h : ∀ d0 u0, lookupConn w d0 u0 = none →
      (alookup A d0).bind (fun conns => alookup conns u0) = none) :
    Shrinks w { w with active := A } :=
  ⟨fun _ hh => hh, fun _ _ hh => hh, h, fun _ hh => hh, fun _ hh => hh,
   fun _ _ hh => hh, fun _ hh => hh, fun _ hh => hh, rfl, rfl⟩

theorem shrinks_info_erase (w : World) (ws : Nat) :
    Shrinks w { w with info := aerase w.info ws } :=
  ⟨fun _ hh => alookup_aerase_none _ _ _ hh,
   fun _ _ hh => alookup_aerase_some _ _ _ _ hh,
   fun _ _ hh => hh, fun _ hh => hh, fun _ hh => hh,
   fun _ _ hh => hh, fun _ hh => hh, fun _ hh => hh, rfl, rfl⟩

theorem smembers_aerase_not_mem (sets : List (String × List String))
    (k k' m : String) (h : m ∉ (alookup sets k').getD []) :
    m ∉ (alookup (aerase sets k) k').getD [] := by
  cases hk : alookup (aerase sets k) k' with
  | none => simp
  | some v =>
      rw [alookup_aerase_some _ _ _ _ hk] at h
      simpa using h

theorem shrinks_redisDel (w : World) (k : String) :
    Shrinks w (redisDel w k).1 :=
  ⟨fun _ hh => hh, fun _ _ hh => hh, fun _ _ hh => hh,
   fun _ hh => alookup_aerase_none _ _ _ hh,
   fun _ hh => alookup_aerase_none _ _ _ hh,
   fun k' m hh => smembers_aerase_not_mem w.sets k k' m hh,
   fun _ hh => hh, fun _ hh => hh, rfl, rfl⟩

theorem shrinks_sremW (w : World) (k m : String) :
    Shrinks w (sremW w k m) := by
  unfold sremW
  cases hs : alookup w.sets k with
  | none => exact Shrinks.refl w
  | some old =>
      refine ⟨fun _ hh => hh, fun _ _ hh => hh, fun _ _ hh => hh,
        fun _ hh => hh, fun _ hh => hh, ?_, fun _ hh => hh, fun _ hh => hh,
        rfl, rfl⟩
      intro k' m' hh
      simp only [smembersW] at hh ⊢
      by_cases hk : k' = k
      · subst hk
        rw [alookup_aset_self]
        simp only [Option.getD_some]
        intro hmem
        exact hh (by rw [hs]; simpa using List.mem_of_mem_filter hmem)
      · rw [alookup_aset_ne _ _ _ _ hk]
        exact hh

theorem shrinks_leftLog_append (w : World) (e : String × String) :
    Shrinks w { w with leftLog := w.leftLog ++ [e] } :=
  ⟨fun _ hh => hh, fun _ _ hh => hh, fun _ _ hh => hh, fun _ hh => hh,
   fun _ hh => hh, fun _ _ hh => hh, fun _ hh => hh,
   fun _ hh => List.mem_append_left _ hh, rfl, rfl⟩

/-- The active_connections update of disconnect never resurrects an absent
registration. -/
theorem conn_none_active_remove (w : World) (d u : String) :
    ∀ d0 u0, lookupConn w d0 u0 = none →
      (alookup
        (match alookup w.active d with
         | none => w.active
         | some conns =>
             let conns' := aerase conns u
             if conns' = [] then aerase w.active d
             else aset w.active d conns') d0).bind
        (fun conns => alookup conns u0) = none := by
  intro d0 u0 h
  cases hd : alookup w.active d with
  | none => exact h
  | some conns =>
      show (alookup
          (if aerase conns u = [] then aerase w.active d
           else aset w.active d (aerase conns u)) d0).bind
          (fun conns => alookup conns u0) = none
      by_cases hconns : aerase conns u = []
      · rw [if_pos hconns]
        by_cases hdd : d0 = d
        · subst hdd; rw [alookup_aerase_self]; rfl
        · rw [alookup_aerase_ne _ _ _ hdd]; exact h
      · rw [if_neg hconns]
        by_cases hdd : d0 = d
        · subst hdd
          rw [alookup_aset_self]
          unfold lookupConn at h
          rw [hd] at h
          simp only [Option.some_bind] at h ⊢
          by_cases huu : u0 = u
          · subst huu; exact alookup_aerase_self conns u0
          · rw [alookup_aerase_ne _ _ _ huu]; exact h
        · rw [alookup_aset_ne _ _ _ _ hdd]; exact h

theorem disconnectCore_shrinks (w : World) (ws : Nat) (ci : ConnInfo) :
    Shrinks w (disconnectCore w ws ci) := by
  unfold disconnectCore
  exact ((((shrinks_active_update w _
      (conn_none_active_remove w ci.dashboard_id ci.user_id)).trans
      (shrinks_info_erase _ ws)).trans
      (shrinks_redisDel _ _)).trans
      (shrinks_sremW _ _ _)).trans
      (shrinks_leftLog_append _ _)

/-- Every disconnect call, at any fuel, only shrinks the world. -/
theorem disconnectF_shrinks :
    ∀ (fuel : Nat) (w : World) (ws : Nat), Shrinks w (disconnectF fuel w ws) := by
  intro fuel
  induction fuel with
  | zero => intro w ws; exact Shrinks.refl w
  | succ k ih =>
      intro w ws
      show Shrinks w (disconnectF (k + 1) w ws)
      rw [disconnectF]
      cases hci : alookup w.info ws with
      | none => exact Shrinks.refl w
      | some ci =>
          exact (disconnectCore_shrinks w ws ci).trans
            (shrinks_broadcastWith (fun a x => ih a x) _ _ _ _)

theorem broadcastF_shrinks (fuel : Nat) (w : World) (d : String)
    (msg : Payload) (ex : Option String) :
    Shrinks w (broadcastF fuel w d msg ex) :=
  shrinks_broadcastWith (fun a x => disconnectF_shrinks fuel a x) w d msg ex

theorem disconnect_shrinks (w : World) (ws : Nat) :
    Shrinks w (disconnect w ws) :=
  disconnectF_shrinks (enoughFuel w) w ws

theorem broadcast_to_dashboard_shrinks (w : World) (d : String)
    (msg : Payload) (ex : Option String) :
    Shrinks w (broadcast_to_dashboard w d msg ex) :=
  broadcastF_shrinks (enoughFuel w) w d msg ex

/-! ### Field computations for sremW and disconnectCore -/

theorem sremW_sent (w : World) (k m : String) : (sremW w k m).sent = w.sent := by
  unfold sremW; split <;> rfl

theorem sremW_info (w : World) (k m : String) : (sremW w k m).info = w.info := by
  unfold sremW; split <;> rfl

theorem sremW_hashes (w : World) (k m : String) :
    (sremW w k m).hashes = w.hashes := by
  unfold sremW; split <;> rfl

theorem sremW_lists (w : World) (k m : String) :
    (sremW w k m).lists = w.lists := by
  unfold sremW; split <;> rfl

theorem sremW_active (w : World) (k m : String) :
    (sremW w k m).active = w.active := by
  unfold sremW; split <;> rfl

theorem sremW_leftLog (w : World) (k m : String) :
    (sremW w k m).leftLog = w.leftLog := by
  unfold sremW; split <;> rfl

theorem sremW_clock (w : World) (k m : String) :
    (sremW w k m).clock = w.clock := by
  unfold sremW; split <;> rfl

/-- After srem, the removed member is no longer in the set. -/
theorem sremW_not_mem (w : World) (k m : String) :
    m ∉ smembersW (sremW w k m) k := by
  unfold sremW
  split
  · rename_i heq
    simp [smembersW, heq]
  · rename_i old heq
    simp only [smembersW, alookup_aset_self, Option.getD_some]
    intro hmem
    have := List.of_mem_filter hmem
    simp at this

theorem redisDel_fst (w : World) (k : String) :
    (redisDel w k).1 =
      { w with hashes := aerase w.hashes k, lists := aerase w.lists k,
               sets := aerase w.sets k, ttls := aerase w.ttls k } := rfl

theorem disconnectCore_sent (w : World) (ws : Nat) (ci : ConnInfo) :
    (disconnectCore w ws ci).sent = w.sent := by
  simp only [disconnectCore, redisDel_fst]
  rw [sremW_sent]

theorem disconnectCore_info (w : World) (ws : Nat) (ci : ConnInfo) :
    (disconnectCore w ws ci).info = aerase w.info ws := by
  simp only [disconnectCore, redisDel_fst]
  rw [sremW_info]

theorem disconnectCore_lists (w : World) (ws : Nat) (ci : ConnInfo) :
    (disconnectCore w ws ci).lists =
      aerase w.lists (userKey ci.dashboard_id ci.user_id) := by
  simp only [disconnectCore, redisDel_fst]
  rw [sremW_lists]

theorem disconnectCore_hashes (w : World) (ws : Nat) (ci : ConnInfo) :
    (disconnectCore w ws ci).hashes =
      aerase w.hashes (userKey ci.dashboard_id ci.user_id) := by
  simp only [disconnectCore, redisDel_fst]
  rw [sremW_hashes]

theorem disconnectCore_leftLog (w : World) (ws : Nat) (ci : ConnInfo) :
    (disconnectCore w ws ci).leftLog =
      w.leftLog ++ [(ci.dashboard_id, ci.username)] := by
  simp only [disconnectCore, redisDel_fst]
  rw [sremW_leftLog]

theorem disconnectCore_clock (w : World) (ws : Nat) (ci : ConnInfo) :
    (disconnectCore w ws ci).clock = w.clock := by
  simp only [disconnectCore, redisDel_fst]
  rw [sremW_clock]

theorem disconnectCore_active (w : World) (ws : Nat) (ci : ConnInfo) :
    (disconnectCore w ws ci).active =
      match alookup w.active ci.dashboard_id with
      | none => w.active
      | some conns =>
          let conns' := aerase conns ci.user_id
          if conns' = [] then aerase w.active ci.dashboard_id
          else aset w.active ci.dashboard_id conns' := by
  simp only [disconnectCore, redisDel_fst]
  rw [sremW_active]

theorem disconnectCore_conn_self (w : World) (ws : Nat) (ci : ConnInfo) :
    lookupConn (disconnectCore w ws ci) ci.dashboard_id ci.user_id = none := by
  unfold lookupConn
  rw [disconnectCore_active]
  cases hd : alookup w.active ci.dashboard_id with
  | none =>
      show (alookup w.active ci.dashboard_id).bind
        (fun c => alookup c ci.user_id) = none
      rw [hd]; rfl
  | some conns =>
      show (alookup
          (if aerase conns ci.user_id = [] then aerase w.active ci.dashboard_id
           else aset w.active ci.dashboard_id (aerase conns ci.user_id))
          ci.dashboard_id).bind (fun c => alookup c ci.user_id) = none
      by_cases hconns : aerase conns ci.user_id = []
      · rw [if_pos hconns, alookup_aerase_self]; rfl
      · rw [if_neg hconns, alookup_aset_self]
        simp only [Option.some_bind]
        exact alookup_aerase_self conns ci.user_id

theorem disconnectCore_set_self (w : World) (ws : Nat) (ci : ConnInfo) :
    ci.user_id ∉
      smembersW (disconnectCore w ws ci) (connectedSetKey ci.dashboard_id) := by
  simp only [disconnectCore, redisDel_fst, smembersW]
  exact sremW_not_mem _ _ _

/-! ### Cleanup: a failed handle ends up unregistered with presence removed -/

/-- The cleanup obligations for a disconnected handle with reverse-lookup
record ci: the handle is gone from connection_info, the (dashboard, user)
registration slot is empty, the presence hash is deleted, the user is out
of the room set, and a user_left notification was issued. -/
def Cleaned (w : World) (c : Nat) (ci : ConnInfo) : Prop :=
  alookup w.info c = none ∧
  lookupConn w ci.dashboard_id ci.user_id = none ∧
  alookup w.hashes (userKey ci.dashboard_id ci.user_id) = none ∧
  ci.user_id ∉ smembersW w (connectedSetKey ci.dashboard_id) ∧
  (ci.dashboard_id, ci.username) ∈ w.leftLog

theorem cleaned_mono {a b : World} (h : Shrinks a b) {c : Nat}
    {ci : ConnInfo} (hc : Cleaned a c ci) : Cleaned b c ci :=
  ⟨h.info_none c hc.1, h.conn_none _ _ hc.2.1, h.hash_none _ hc.2.2.1,
   h.set_not_mem _ _ hc.2.2.2.1, h.left_mono _ hc.2.2.2.2⟩

theorem disconnectCore_cleans (w : World) (c : Nat) (ci : ConnInfo) :
    Cleaned (disconnectCore w c ci) c ci := by
  refine ⟨?_, disconnectCore_conn_self w c ci, ?_, disconnectCore_set_self w c ci, ?_⟩
  · rw [disconnectCore_info]; exact alookup_aerase_self _ _
  · rw [disconnectCore_hashes]; exact alookup_aerase_self _ _
  · rw [disconnectCore_leftLog]; exact List.mem_append_right _ (by simp)

/-- A disconnect with positive fuel on a handle that has a reverse-lookup
entry fully cleans that handle up. -/
theorem disconnectF_cleans (fuel : Nat) (w : World) (c : Nat) (ci : ConnInfo)
    (h : alookup w.info c = some ci) :
    Cleaned (disconnectF (fuel + 1) w c) c ci := by
  rw [disconnectF, h]
  exact cleaned_mono
    (shrinks_broadcastWith (fun a x => disconnectF_shrinks fuel a x) _ _ _ _)
    (disconnectCore_cleans w c ci)

theorem foldl_info_disj {f : World → Nat → World}
    (hshr : ∀ a x, Shrinks a (f a x))
    (hf : ∀ a x c ci, alookup a.info c = some ci →
      alookup (f a x).info c = some ci ∨ Cleaned (f a x) c ci) :
    ∀ (l : List Nat) (w : World) (c : Nat) (ci : ConnInfo),
      (alookup w.info c = some ci ∨ Cleaned w c ci) →
      alookup (l.foldl f w).info c = some ci ∨ Cleaned (l.foldl f w) c ci := by
  intro l
  induction l with
  | nil => intro w c ci h; exact h
  | cons x tl ih =>
      intro w c ci h
      simp only [List.foldl_cons]
      rcases h with h | h
      · exact ih (f w x) c ci (hf w x c ci h)
      · exact ih (f w x) c ci (Or.inr (cleaned_mono (hshr w x) h))

theorem broadcastWith_info_disj {disc : World → Nat → World}
    (hshr : ∀ a x, Shrinks a (disc a x))
    (hdisc : ∀ a x c ci, alookup a.info c = some ci →
      alookup (disc a x).info c = some ci ∨ Cleaned (disc a x) c ci)
    (w : World) (d : String) (msg : Payload) (ex : Option String)
    (c : Nat) (ci : ConnInfo) (h : alookup w.info c = some ci) :
    alookup (broadcastWith disc w d msg ex).info c = some ci ∨
      Cleaned (broadcastWith disc w d msg ex) c ci := by
  unfold broadcastWith
  cases ha : alookup w.active d with
  | none => exact Or.inl h
  | some conns =>
      have h1 : alookup (sendLoop w msg ex conns).1.info c = some ci := by
        rw [(sendLoop_fields msg ex conns w).2.1]; exact h
      exact foldl_info_disj hshr hdisc (sendLoop w msg ex conns).2
        (sendLoop w msg ex conns).1 c ci (Or.inl h1)

/-- A registered reverse-lookup entry either survives any disconnect call
unchanged or its handle has been fully cleaned up. -/
theorem disconnectF_info_disj :
    ∀ (fuel : Nat) (w : World) (x c : Nat) (ci : ConnInfo),
      alookup w.info c = some ci →
      alookup (disconnectF fuel w x).info c = some ci ∨
        Cleaned (disconnectF fuel w x) c ci := by
  intro fuel
  induction fuel with
  | zero => intro w x c ci h; exact Or.inl h
  | succ k ih =>
      intro w x c ci h
      by_cases hxc : x = c
      · subst hxc
        exact Or.inr (disconnectF_cleans k w x ci h)
      · rw [disconnectF]
        cases hx : alookup w.info x with
        | none => exact Or.inl h
        | some cix =>
            have hcore : alookup (disconnectCore w x cix).info c = some ci := by
              rw [disconnectCore_info]
              rw [alookup_aerase_ne _ _ _ (fun hh => hxc hh.symm)]
              exact h
            exact broadcastWith_info_disj (fun a y => disconnectF_shrinks k a y)
              (fun a y c0 ci0 h0 => ih a y c0 ci0 h0) _ _ _ _ c ci hcore

/-- Folding disconnects over a failed list cleans up every member of the
list that had a reverse-lookup entry. -/
theorem foldl_disconnect_cleans (k : Nat) :
    ∀ (l : List Nat) (w : World) (c : Nat) (ci : ConnInfo),
      c ∈ l → (alookup w.info c = some ci ∨ Cleaned w c ci) →
      Cleaned (l.foldl (fun a x => disconnectF (k + 1) a x) w) c ci := by
  intro l
  induction l with
  | nil => intro w c ci hc; exact absurd hc (List.not_mem_nil c)
  | cons x tl ih =>
      intro w c ci hc hdisj
      simp only [List.foldl_cons]
      rcases List.mem_cons.mp hc with heq | hc'
      · subst heq
        have hcl : Cleaned (disconnectF (k + 1) w c) c ci := by
          rcases hdisj with h | h
          · exact disconnectF_cleans k w c ci h
          · exact cleaned_mono (disconnectF_shrinks (k + 1) w c) h
        exact cleaned_mono
          (shrinks_foldl (fun a x => disconnectF_shrinks (k + 1) a x) tl _) hcl
      · rcases hdisj with h | h
        · exact ih _ c ci hc' (disconnectF_info_disj (k + 1) w x c ci h)
        · exact ih _ c ci hc'
            (Or.inr (cleaned_mono (disconnectF_shrinks (k + 1) w x) h))

/-! ### Characterization of delivery-log additions -/

/-- A payload is a user_left notification. -/
def IsUserLeft : Payload → Prop := fun p => ∃ n ts, p = Payload.userLeft n ts

theorem foldl_sent_additions {f : World → Nat → World}
    (hf : ∀ a x p, p ∈ (f a x).sent → p ∈ a.sent ∨ IsUserLeft p.2) :
    ∀ (l : List Nat) (w : World) (p : Nat × Payload),
      p ∈ (l.foldl f w).sent → p ∈ w.sent ∨ IsUserLeft p.2 := by
  intro l
  induction l with
  | nil => intro w p hp; exact Or.inl hp
  | cons x tl ih =>
      intro w p hp
      simp only [List.foldl_cons] at hp
      rcases ih (f w x) p hp with h | h
      · exact hf w x p h
      · exact Or.inr h

theorem broadcastWith_sent_additions {disc : World → Nat → World}
    (hdisc : ∀ a x p, p ∈ (disc a x).sent → p ∈ a.sent ∨ IsUserLeft p.2)
    (w : World) (d : String) (msg : Payload) (ex : Option String)
    (p : Nat × Payload) (hp : p ∈ (broadcastWith disc w d msg ex).sent) :
    p ∈ w.sent ∨ p.2 = msg ∨ IsUserLeft p.2 := by
  unfold broadcastWith at hp
  cases ha : alookup w.active d with
  | none => rw [ha] at hp; exact Or.inl hp
  | some conns =>
      rw [ha] at hp
      rcases foldl_sent_additions hdisc _ _ p hp with h | h
      · rcases sendLoop_sent_char msg ex conns w p h with h1 | h1
        · exact Or.inl h1
        · exact Or.inr (Or.inl h1)
      · exact Or.inr (Or.inr h)

/-- Every delivery a disconnect cascade adds is a user_left notification. -/
theorem disconnectF_sent_additions :
    ∀ (fuel : Nat) (w : World) (x : Nat) (p : Nat × Payload),
      p ∈ (disconnectF fuel w x).sent → p ∈ w.sent ∨ IsUserLeft p.2 := by
  intro fuel
  induction fuel with
  | zero => intro w x p hp; exact Or.inl hp
  | succ k ih =>
      intro w x p hp
      rw [disconnectF] at hp
      cases hx : alookup w.info x with
      | none => rw [hx] at hp; exact Or.inl hp
      | some ci =>
          rw [hx] at hp
          rcases broadcastWith_sent_additions
            (fun a y q hq => ih a y q hq) _ _ _ _ p hp with h | h | h
          · rw [disconnectCore_sent] at h; exact Or.inl h
          · exact Or.inr ⟨ci.username, _, h⟩
          · exact Or.inr h

/-! ### Arithmetic of the LRANGE / LTRIM slice semantics -/

theorem slice_fin_all (l : List String) (A B : Int)
    (hB : B.toNat = 0) (hA : l.length ≤ A.toNat) :
    List.take A.toNat (List.drop B.toNat l) = l := by
  rw [hB, List.drop_zero]
  exact List.take_of_length_le hA

theorem slice_fin_drop (l : List String) (A B : Int) (n : Nat)
    (hB : B.toNat = n) (hA : l.length - n ≤ A.toNat) :
    List.take A.toNat (List.drop B.toNat l) = l.drop n := by
  rw [hB]
  exact List.take_of_length_le (by rw [List.length_drop]; exact hA)

theorem slice_fin_window (l : List String) (A B : Int) (a b : Nat)
    (hB : B.toNat = b) (hA : A.toNat = a) :
    List.take A.toNat (List.drop B.toNat l) = (l.drop b).take a := by
  rw [hA, hB]

theorem redisSlice_nil (start stop : Int) : redisSlice [] start stop = [] := by
  simp only [redisSlice, normIdx]
  split_ifs <;> simp

/-- LRANGE key 0 -1 reads the whole list. -/
theorem redisSlice_all (l : List String) : redisSlice l 0 (-1) = l := by
  simp only [redisSlice, normIdx]
  split_ifs with h1 h2 h3 <;> try omega
  · have : (l.length : Int) = 0 := by omega
    have hnil : l = [] := List.length_eq_zero.mp (by omega)
    rw [hnil]
  · exact slice_fin_all l _ _ (by omega) (by omega)

/-- LTRIM key -K -1 with K at least 1 keeps the last K entries. -/
theorem redisSlice_lastK (l : List String) (K : Nat) (hK : 1 ≤ K) :
    redisSlice l (-(K : Int)) (-1) = l.drop (l.length - K) := by
  simp only [redisSlice, normIdx]
  split_ifs with h1 h2 h3 <;> try omega
  · have hnil : l = [] := List.length_eq_zero.mp (by omega)
    rw [hnil]; simp
  · exact slice_fin_drop l _ _ (l.length - K) (by omega) (by omega)

/-- LRANGE key skip (skip + limit - 1) with skip nonnegative and limit
positive reads limit entries starting at position skip from the head. -/
theorem redisSlice_window (l : List String) (skip limit : Int)
    (h1 : 0 ≤ skip) (h2 : 1 ≤ limit) :
    redisSlice l skip (skip + limit - 1) =
      (l.drop skip.toNat).take limit.toNat := by
  simp only [redisSlice, normIdx]
  split_ifs with ha hb hc <;> try omega
  · rw [List.drop_eq_nil_of_le (by omega), List.take_nil]
  · by_cases hfit : skip + limit - 1 ≤ (l.length : Int) - 1
    · exact slice_fin_window l _ _ limit.toNat skip.toNat (by omega) (by omega)
    · rw [slice_fin_drop l _ _ skip.toNat (by omega) (by omega)]
      rw [List.take_of_length_le (by rw [List.length_drop]; omega)]

/-! ### The append / trim behaviour of the message store -/

/-- The last K entries of a list (what LTRIM -K -1 keeps). -/
def lastK (K : Nat) (l : List String) : List String := l.drop (l.length - K)

theorem lastK_absorb (K : Nat) (l r : List String) :
    lastK K (lastK K l ++ r) = lastK K (l ++ r) := by
  unfold lastK
  by_cases h : l.length ≤ K
  · have h0 : l.length - K = 0 := by omega
    rw [h0, List.drop_zero]
  · have hx : (l.drop (l.length - K)).length = K := by
      rw [List.length_drop]; omega
    rw [List.drop_append_eq_append_drop, List.drop_append_eq_append_drop]
    rw [List.drop_drop, List.length_append, List.length_append, hx]
    have e1 : K + r.length - K - K = r.length - K := by omega
    have e2 : l.length - K + (K + r.length - K) = l.length + r.length - K := by
      omega
    have e3 : l.length + r.length - K - l.length = r.length - K := by omega
    rw [e1, e2, e3]

theorem lastK_ne_nil (K : Nat) (l : List String) (hK : 1 ≤ K)
    (hl : l ≠ []) : lastK K l ≠ [] := by
  unfold lastK
  intro hcon
  have hlen := congrArg List.length hcon
  rw [List.length_drop] at hlen
  simp at hlen
  have : 1 ≤ l.length := List.length_pos.mpr hl
  omega

theorem ltrimW_hashes (w : World) (k : String) (a b : Int) :
    (ltrimW w k a b).hashes = w.hashes := by
  unfold ltrimW
  by_cases h : redisSlice (lookupListD w k) a b = [] <;> simp [h]

theorem ltrimW_ttls (w : World) (k : String) (a b : Int) :
    (ltrimW w k a b).ttls = w.ttls := by
  unfold ltrimW
  by_cases h : redisSlice (lookupListD w k) a b = [] <;> simp [h]

theorem ltrimW_sets (w : World) (k : String) (a b : Int) :
    (ltrimW w k a b).sets = w.sets := by
  unfold ltrimW
  by_cases h : redisSlice (lookupListD w k) a b = [] <;> simp [h]

theorem expireW_hashes (w : World) (k : String) (n : Nat) :
    (expireW w k n).hashes = w.hashes := by
  unfold expireW; split <;> rfl

theorem expireW_lists (w : World) (k : String) (n : Nat) :
    (expireW w k n).lists = w.lists := by
  unfold expireW; split <;> rfl

theorem expireW_sets (w : World) (k : String) (n : Nat) :
    (expireW w k n).sets = w.sets := by
  unfold expireW; split <;> rfl

theorem expireW_ttls_ne (w : World) (k : String) (n : Nat) (k' : String)
    (h : k' ≠ k) : alookup (expireW w k n).ttls k' = alookup w.ttls k' := by
  unfold expireW
  split
  · exact alookup_aset_ne _ _ _ _ h
  · rfl

theorem expireW_ttls_self (w : World) (k : String) (n : Nat)
    (h : keyExists w k = true) : alookup (expireW w k n).ttls k = some n := by
  unfold expireW
  rw [if_pos h]
  exact alookup_aset_self _ _ _

/-- One append: the room list becomes the last K entries of the old list
with the new id appended. -/
theorem lookupListD_save (s : Settings) (hK : 1 ≤ s.message_history_limit)
    (w : World) (m : ChatMessage) :
    lookupListD (save_message_to_redis s w m) (listKey m.dashboard_id) =
      lastK s.message_history_limit
        (lookupListD w (listKey m.dashboard_id) ++ [m.id]) := by
  unfold save_message_to_redis
  set lk := listKey m.dashboard_id with hlk
  set w1 := hsetW w (messageKey m.dashboard_id m.id) m.to_dict with hw1
  set w2 := rpushW w1 lk m.id with hw2
  have hl2 : lookupListD w2 lk = lookupListD w lk ++ [m.id] := by
    unfold lookupListD
    rw [hw2]
    unfold rpushW
    simp only [alookup_aset_self, Option.getD_some]
    rfl
  have htrim : redisSlice (lookupListD w2 lk)
      (-(s.message_history_limit : Int)) (-1) =
      lastK s.message_history_limit (lookupListD w lk ++ [m.id]) := by
    rw [redisSlice_lastK _ _ hK, hl2]; rfl
  have hnonnil : lastK s.message_history_limit
      (lookupListD w lk ++ [m.id]) ≠ [] :=
    lastK_ne_nil _ _ hK (by simp)
  show lookupListD (expireW (ltrimW w2 lk (-(s.message_history_limit : Int))
    (-1)) (messageKey m.dashboard_id m.id) (30 * 24 * 60 * 60)) lk =
    lastK s.message_history_limit (lookupListD w lk ++ [m.id])
  unfold lookupListD
  rw [expireW_lists]
  unfold ltrimW
  rw [htrim, if_neg hnonnil]
  simp only [alookup_aset_self, Option.getD_some]
  rfl

/-- Appending a nonempty sequence of messages for one room: the room list
is the last K of the old list extended by all the new ids. -/
theorem lookupListD_save_fold (s : Settings) (hK : 1 ≤ s.message_history_limit)
    (d : String) :
    ∀ (ms : List ChatMessage) (w : World), ms ≠ [] →
      (∀ m ∈ ms, m.dashboard_id = d) →
      lookupListD (ms.foldl (save_message_to_redis s) w) (listKey d) =
        lastK s.message_history_limit
          (lookupListD w (listKey d) ++ ms.map (fun m => m.id)) := by
  intro ms
  induction ms with
  | nil => intro w hne; exact absurd rfl hne
  | cons m tl ih =>
      intro w _ hall
      have hd : m.dashboard_id = d := hall m (List.mem_cons_self _ _)
      have hstep : lookupListD (save_message_to_redis s w m) (listKey d) =
          lastK s.message_history_limit (lookupListD w (listKey d) ++ [m.id]) := by
        rw [← hd]; exact lookupListD_save s hK w m
      simp only [List.foldl_cons, List.map_cons]
      cases tl with
      | nil =>
          simp only [List.foldl_nil, List.map_nil]
          rw [hstep]
      | cons m2 tl2 =>
          rw [ih (save_message_to_redis s w m) (by simp)
            (fun x hx => hall x (List.mem_cons_of_mem _ hx))]
          rw [hstep, lastK_absorb]
          simp

/-- ChatMessage.to_dict has pairwise distinct field names. -/
theorem to_dict_keys_nodup (m : ChatMessage) :
    ((ChatMessage.to_dict m).map Prod.fst).Nodup := by
  unfold ChatMessage.to_dict
  cases m.edited_at <;> cases m.reply_to <;> simp

/-- A save writes hashes and ttls only at the key of the saved message. -/
theorem save_hashes_ne (s : Settings) (w : World) (m : ChatMessage)
    (k : String) (hk : k ≠ messageKey m.dashboard_id m.id) :
    alookup (save_message_to_redis s w m).hashes k = alookup w.hashes k ∧
    alookup (save_message_to_redis s w m).ttls k = alookup w.ttls k := by
  unfold save_message_to_redis
  constructor
  · rw [expireW_hashes, ltrimW_hashes]
    show alookup (hsetW w (messageKey m.dashboard_id m.id) m.to_dict).hashes k
      = alookup w.hashes k
    unfold hsetW
    exact alookup_aset_ne _ _ _ _ hk
  · rw [expireW_ttls_ne _ _ _ _ hk, ltrimW_ttls]
    rfl

/-- A save on a fresh key stores exactly to_dict with the 30 day ttl. -/
theorem save_hashes_self (s : Settings) (w : World) (m : ChatMessage)
    (hfresh : alookup w.hashes (messageKey m.dashboard_id m.id) = none) :
    alookup (save_message_to_redis s w m).hashes
        (messageKey m.dashboard_id m.id) = some m.to_dict ∧
    alookup (save_message_to_redis s w m).ttls
        (messageKey m.dashboard_id m.id) = some (30 * 24 * 60 * 60) := by
  set key := messageKey m.dashboard_id m.id with hkey
  have hw1 : alookup (hsetW w key m.to_dict).hashes key = some m.to_dict := by
    unfold hsetW
    simp only [hfresh, Option.getD_none]
    rw [alookup_aset_self, foldl_aset_nodup _ (to_dict_keys_nodup m)]
  have hl3 : (ltrimW (rpushW (hsetW w key m.to_dict) (listKey m.dashboard_id)
      m.id) (listKey m.dashboard_id) (-(s.message_history_limit : Int))
      (-1)).hashes = (hsetW w key m.to_dict).hashes := by
    rw [ltrimW_hashes]
    rfl
  have hke : keyExists (ltrimW (rpushW (hsetW w key m.to_dict)
      (listKey m.dashboard_id) m.id) (listKey m.dashboard_id)
      (-(s.message_history_limit : Int)) (-1)) key = true := by
    unfold keyExists
    rw [hl3, hw1]
    simp
  unfold save_message_to_redis
  constructor
  · rw [expireW_hashes, hl3]
    exact hw1
  · exact expireW_ttls_self _ _ _ hke

/-! ### Serialization roundtrips -/

/-- ConnectedUser survives to_dict followed by from_dict unchanged. -/
theorem connectedUser_from_to (defTs : Rat) (cu : ConnectedUser) :
    ConnectedUser.from_dict defTs cu.to_dict = some cu := by
  rcases cu with ⟨uid, did, un, st, ca, ls, sid⟩
  cases st <;> cases sid <;> rfl

/-- ChatMessage survives to_dict followed by from_dict unchanged, provided
its content respects the pydantic max_length of 1000. -/
theorem chatMessage_from_to (defId : String) (defTs : Rat) (m : ChatMessage)
    (hc : m.content.length ≤ 1000) :
    ChatMessage.from_dict defId defTs m.to_dict = some m := by
  rcases m with ⟨mid, did, uid, un, content, mt, ts, ed, del, rt⟩
  simp only at hc
  cases mt <;> cases ed <;> cases del <;> cases rt <;>
    simp [ChatMessage.to_dict, ChatMessage.from_dict, alookup, hc,
      messageType_ofString_value]

/-! ### Claim theorems -/

/-- C10: serializing a message record with to_dict and deserializing with
from_dict yields the record back; the deleted flag is stored as the literal
string 1 or 0; optional fields absent from the record produce no dictionary
entry (and therefore come back absent, as the roundtrip shows). -/
theorem c10_roundtrip (m : ChatMessage) (defId : String) (defTs : Rat)
    (hc : m.content.length ≤ 1000) :
    ChatMessage.from_dict defId defTs m.to_dict = some m ∧
    alookup m.to_dict "is_deleted" =
      some (Value.vstr (if m.is_deleted then "1" else "0")) ∧
    (m.edited_at = none → alookup m.to_dict "edited_at" = none) ∧
    (m.reply_to = none → alookup m.to_dict "reply_to" = none) := by
  refine ⟨chatMessage_from_to defId defTs m hc, ?_, ?_, ?_⟩
  · unfold ChatMessage.to_dict
    cases m.edited_at <;> cases m.reply_to <;> simp [alookup]
  · intro h
    unfold ChatMessage.to_dict
    rw [h]
    cases m.reply_to <;> simp [alookup]
  · intro h
    unfold ChatMessage.to_dict
    rw [h]
    cases m.edited_at <;> simp [alookup]

/-- A concrete message record for the C10 witness. -/
def c10msg : ChatMessage :=
  ⟨"m1", "d1", "u1", "alice", "hi", .text, 5, none, false, none⟩

/-- Witness for C10 at a concrete record. -/
theorem c10_roundtrip_witness :
    ChatMessage.from_dict "x" 0 c10msg.to_dict = some c10msg ∧
    alookup c10msg.to_dict "is_deleted" =
      some (Value.vstr (if c10msg.is_deleted then "1" else "0")) ∧
    (c10msg.edited_at = none → alookup c10msg.to_dict "edited_at" = none) ∧
    (c10msg.reply_to = none → alookup c10msg.to_dict "reply_to" = none) :=
  c10_roundtrip c10msg "x" 0 (by decide)

/-- C3: a chat_message frame whose effective content (content field with
the legacy message alias fallback) trims to empty, or exceeds the
configured maximum length, is dropped silently: the whole world is
unchanged, so there is no store append, no broadcast delivery, and no
reply to the sender. -/
theorem c3_invalid_content_dropped (s : Settings) (d u n : String)
    (fd : FrameData) (w : World)
    (h : pyStrip (effectiveContent fd) = "" ∨
      s.max_message_length < (pyStrip (effectiveContent fd)).length) :
    handle_websocket_message s d u n fd w = w := by
  unfold handle_websocket_message
  rw [if_pos h]

/-- Witness for C3: a whitespace-only content frame and an oversize frame
are both dropped. -/
theorem c3_invalid_content_dropped_witness :
    handle_websocket_message defaultSettings "d1" "u1" "alice"
      ⟨some "   ", none, none, none, none⟩ emptyWorld = emptyWorld :=
  c3_invalid_content_dropped defaultSettings "d1" "u1" "alice"
    ⟨some "   ", none, none, none, none⟩ emptyWorld (Or.inl (by decide))

/-- A world with two live connections, users uA and uB, in room d1. -/
def wC1 : World :=
  { emptyWorld with
    active := [("d1", [("uA", 1), ("uB", 2)])],
    info := [(1, ⟨"d1", "uA", "A"⟩), (2, ⟨"d1", "uB", "B"⟩)] }

/-- The frames of the C1 counterexample: an unparseable frame followed by a
valid chat_message frame. -/
def c1frames : List InFrame :=
  [InFrame.malformed,
   InFrame.frame (some "chat_message") ⟨some "hi", none, none, none, none⟩]

/-- Is a payload a chat_message delivery? -/
def isChatPayload : Payload → Bool
  | .chatMessage _ _ _ _ _ _ _ _ => true
  | _ => false

/-- C1 counterexample: in a room with users uA (handle 1) and uB (handle 2),
when uA sends an unparseable frame followed by a valid chat_message frame,
the receive loop does not continue: handle 1 is unregistered (connection
terminated) and the later chat frame is never processed — no message list
is written and nobody receives a chat_message delivery.  This refutes the
claim that a frame whose parse raises is logged and the loop continues. -/
theorem c1_counterexample :
    alookup (wsLoop defaultSettings 1 "d1" "uA" "A" wC1 c1frames).info 1
      = none ∧
    (wsLoop defaultSettings 1 "d1" "uA" "A" wC1 c1frames).lists = [] ∧
    List.filter (fun p => isChatPayload p.2)
      (wsLoop defaultSettings 1 "d1" "uA" "A" wC1 c1frames).sent = [] := by
  decide

/-- C1 amended: a chat_message frame is dispatched inside its own
try/except, so the loop always continues to the next frame, and a handler
exception (such as the ValueError from an invalid message_type) only drops
the frame; but a frame whose parse raises propagates to the outer except
handler, which disconnects the handle and removes the user from Redis,
abandoning all remaining frames. -/
theorem c1_parse_error_terminates (s : Settings) (ws : Nat) (d u n : String)
    (w : World) (fd : FrameData) (rest : List InFrame) :
    wsLoop s ws d u n w (InFrame.frame (some "chat_message") fd :: rest) =
      wsLoop s ws d u n (handle_websocket_message s d u n fd w) rest ∧
    (MessageType.ofString (fd.message_type.getD "text") = none →
      handle_websocket_message s d u n fd w = w) ∧
    wsLoop s ws d u n w (InFrame.malformed :: rest) =
      remove_user_from_redis (disconnect w ws) d u := by
  refine ⟨by simp [wsLoop], ?_, rfl⟩
  intro hmt
  unfold handle_websocket_message
  simp only [hmt]
  split <;> rfl

/-- The invalid-message_type frame of the C1 witness. -/
def fdBogus : FrameData := ⟨some "hi", none, some "bogus", none, none⟩

/-- Witness for C1 amended at a concrete world and frame. -/
theorem c1_parse_error_terminates_witness :
    (wsLoop defaultSettings 1 "d1" "uA" "A" wC1
        [InFrame.frame (some "chat_message") fdBogus] =
      wsLoop defaultSettings 1 "d1" "uA" "A"
        (handle_websocket_message defaultSettings "d1" "uA" "A" fdBogus wC1)
        []) ∧
    handle_websocket_message defaultSettings "d1" "uA" "A" fdBogus wC1
      = wC1 ∧
    wsLoop defaultSettings 1 "d1" "uA" "A" wC1 [InFrame.malformed] =
      remove_user_from_redis (disconnect wC1 1) "d1" "uA" := by
  have h := c1_parse_error_terminates defaultSettings 1 "d1" "uA" "A" wC1
    fdBogus []
  exact ⟨h.1, h.2.1 (by decide), h.2.2⟩

/-- The C4 counterexample worlds: handle 1 connects for (d, u), then
handle 2 connects for the same (d, u), replacing handle 1. -/
def wC4 : World := connect (connect emptyWorld 1 "d" "u" "n") 2 "d" "u" "n"

/-- C4 counterexample: after the second connect, (d, u) maps to handle 2,
yet disconnecting the first (orphaned) handle removes that registration —
refuting that unregistering the orphaned handle must not remove the second
handle's registration. -/
theorem c4_counterexample :
    lookupConn wC4 "d" "u" = some 2 ∧
    lookupConn (disconnect wC4 1) "d" "u" = none := by
  decide

/-- C4 amended: unregistering a handle that still has a reverse-lookup
entry removes the registry entry stored under that entry's (room, user)
key — which, after a replacement, is the second handle's registration —
deletes the (room, user) presence hash, and issues a user_left
notification with the recorded username; unregistering a handle with no
reverse-lookup entry is a no-op (the not-found case). -/
theorem c4_unregister (w : World) (ws : Nat) :
    (∀ ci, alookup w.info ws = some ci →
      alookup (disconnect w ws).info ws = none ∧
      lookupConn (disconnect w ws) ci.dashboard_id ci.user_id = none ∧
      alookup (disconnect w ws).hashes
        (userKey ci.dashboard_id ci.user_id) = none ∧
      (ci.dashboard_id, ci.username) ∈ (disconnect w ws).leftLog) ∧
    (alookup w.info ws = none → disconnect w ws = w) := by
  constructor
  · intro ci h
    have hcl : Cleaned (disconnect w ws) ws ci :=
      disconnectF_cleans (w.info.length + 1) w ws ci h
    exact ⟨hcl.1, hcl.2.1, hcl.2.2.1, hcl.2.2.2.2⟩
  · intro h
    show disconnectF (w.info.length + 1 + 1) w ws = w
    rw [disconnectF, h]

/-- Witness for C4 amended: both branches at concrete worlds. -/
theorem c4_unregister_witness :
    (alookup (disconnect wC4 1).info 1 = none ∧
     lookupConn (disconnect wC4 1) "d" "u" = none ∧
     alookup (disconnect wC4 1).hashes (userKey "d" "u") = none ∧
     ("d", "n") ∈ (disconnect wC4 1).leftLog) ∧
    disconnect emptyWorld 7 = emptyWorld := by
  have h1 := (c4_unregister wC4 1).1 ⟨"d", "u", "n"⟩ (by decide)
  have h2 := (c4_unregister emptyWorld 7).2 (by decide)
  exact ⟨h1, h2⟩

/-- C6: for nonnegative skip and positive limit, get_range reads the ids at
list positions skip .. skip + limit - 1 counted from the head (oldest end)
of the room list, in head-first order, and resolves each id, silently
skipping ids whose hash is missing or fails to parse. -/
theorem c6_get_range (w : World) (d : String) (limit skip : Int)
    (defId : String) (defTs : Rat) (h1 : 0 ≤ skip) (h2 : 1 ≤ limit) :
    get_messages_from_redis w d limit skip defId defTs =
      (((lookupListD w (listKey d)).drop skip.toNat).take
        limit.toNat).filterMap (resolveMessage w d defId defTs) := by
  unfold get_messages_from_redis lrangeW
  rw [redisSlice_window _ _ _ h1 h2]

/-- A store with three messages for the C6 witness; id b has no hash. -/
def wC6 : World :=
  { emptyWorld with
    lists := [("messages:d", ["a", "b", "c"])],
    hashes := [("message:d:a", ChatMessage.to_dict
                  ⟨"a", "d", "u1", "n1", "ha", .text, 1, none, false, none⟩),
               ("message:d:c", ChatMessage.to_dict
                  ⟨"c", "d", "u1", "n1", "hc", .text, 3, none, false, none⟩)] }

/-- Witness for C6 at a concrete store. -/
theorem c6_get_range_witness :
    get_messages_from_redis wC6 "d" 2 1 "x" 0 =
      (((lookupListD wC6 (listKey "d")).drop (1 : Int).toNat).take
        (2 : Int).toNat).filterMap (resolveMessage wC6 "d" "x" 0) :=
  c6_get_range wC6 "d" 2 1 "x" 0 (by decide) (by decide)

/-- Preservation: saving other messages does not touch a fixed key. -/
theorem save_fold_preserve (s : Settings) (d : String) :
    ∀ (tl : List ChatMessage) (w : World) (k : String),
      (∀ m ∈ tl, m.dashboard_id = d) →
      (∀ m ∈ tl, messageKey d m.id ≠ k) →
      alookup (tl.foldl (save_message_to_redis s) w).hashes k
        = alookup w.hashes k ∧
      alookup (tl.foldl (save_message_to_redis s) w).ttls k
        = alookup w.ttls k := by
  intro tl
  induction tl with
  | nil => intro w k _ _; exact ⟨rfl, rfl⟩
  | cons m tl2 ih =>
      intro w k hall hne
      have hd : m.dashboard_id = d := hall m (List.mem_cons_self _ _)
      have hkm : k ≠ messageKey m.dashboard_id m.id := by
        rw [hd]
        exact (hne m (List.mem_cons_self _ _)).symm
      have hstep := save_hashes_ne s w m k hkm
      simp only [List.foldl_cons]
      have := ih (save_message_to_redis s w m) k
        (fun x hx => hall x (List.mem_cons_of_mem _ hx))
        (fun x hx => hne x (List.mem_cons_of_mem _ hx))
      exact ⟨this.1.trans hstep.1, this.2.trans hstep.2⟩

/-- Settings with history limit 0 for the C5 counterexample. -/
def sC5zero : Settings := ⟨1000, 0⟩

/-- A single concrete message for the C5 counterexample. -/
def mC5zero : ChatMessage :=
  ⟨"a", "d", "u", "n", "m1", .text, 1, none, false, none⟩

/-- C5 counterexample: with history limit K = 0, the trim call passes
start = -0 = 0, so LTRIM 0 -1 keeps the whole list; appending K + 1 = 1
message to an empty room leaves 1 id in the list, not K = 0.  This refutes
the claim as stated for the configuration K = 0 that it quantifies over. -/
theorem c5_counterexample :
    lookupListD (save_message_to_redis sC5zero emptyWorld mC5zero)
      (listKey "d") = ["a"] ∧
    (lookupListD (save_message_to_redis sC5zero emptyWorld mC5zero)
      (listKey "d")).length ≠ sC5zero.message_history_limit := by
  decide

/-- C5 amended (the claim holds for every history limit K at least 1):
appending K + 1 messages (same room, fresh pairwise-distinct keys)
to a room whose list starts empty leaves exactly the most recent K ids in
the room list (the first id is evicted), while the evicted first message's
hash record is untouched by the trim: it still holds exactly its to_dict
fields and carries its own 30 day ttl, so it stays fetchable by direct key
lookup until that expiry. -/
theorem c5_trim_eviction (s : Settings) (d : String) (ms : List ChatMessage)
    (m0 : ChatMessage) (w : World)
    (hK : 1 ≤ s.message_history_limit)
    (hlen : ms.length = s.message_history_limit + 1)
    (hall : ∀ m ∈ ms, m.dashboard_id = d)
    (hhead : ms.head? = some m0)
    (hkeys : (ms.map (fun m => messageKey d m.id)).Nodup)
    (hfresh : ∀ m ∈ ms, alookup w.hashes (messageKey d m.id) = none)
    (hinit : lookupListD w (listKey d) = []) :
    lookupListD (ms.foldl (save_message_to_redis s) w) (listKey d) =
      (ms.map (fun m => m.id)).drop 1 ∧
    (lookupListD (ms.foldl (save_message_to_redis s) w) (listKey d)).length =
      s.message_history_limit ∧
    alookup (ms.foldl (save_message_to_redis s) w).hashes
      (messageKey d m0.id) = some m0.to_dict ∧
    alookup (ms.foldl (save_message_to_redis s) w).ttls
      (messageKey d m0.id) = some (30 * 24 * 60 * 60) := by
  have hne : ms ≠ [] := by
    intro hcon; rw [hcon] at hlen; simp at hlen
  have hlist : lookupListD (ms.foldl (save_message_to_redis s) w) (listKey d)
      = (ms.map (fun m => m.id)).drop 1 := by
    rw [lookupListD_save_fold s hK d ms w hne hall, hinit]
    unfold lastK
    simp only [List.nil_append, List.length_map, hlen]
    have : s.message_history_limit + 1 - s.message_history_limit = 1 := by
      omega
    rw [this]
  refine ⟨hlist, ?_, ?_⟩
  · rw [hlist]
    simp [hlen]
  · obtain ⟨tl, rfl⟩ : ∃ tl, ms = m0 :: tl := by
      cases ms with
      | nil => simp at hhead
      | cons a tl =>
          simp only [List.head?_cons, Option.some.injEq] at hhead
          exact ⟨tl, by rw [hhead]⟩
    have hd0 : m0.dashboard_id = d := hall m0 (List.mem_cons_self _ _)
    have hfresh0 : alookup w.hashes (messageKey m0.dashboard_id m0.id)
        = none := by
      rw [hd0]; exact hfresh m0 (List.mem_cons_self _ _)
    have hself := save_hashes_self s w m0 hfresh0
    simp only [List.map_cons, List.nodup_cons] at hkeys
    have hpres := save_fold_preserve s d tl (save_message_to_redis s w m0)
      (messageKey d m0.id)
      (fun x hx => hall x (List.mem_cons_of_mem _ hx))
      (fun x hx hcon => hkeys.1 (hcon ▸ List.mem_map_of_mem _ hx))
    simp only [List.foldl_cons]
    rw [hpres.1, hpres.2, hd0] at *
    exact ⟨hself.1, hself.2⟩

/-- Concrete settings with history limit 2 for the C5 witness. -/
def sC5 : Settings := ⟨1000, 2⟩

/-- Three concrete messages for the C5 witness. -/
def msC5 : List ChatMessage :=
  [⟨"a", "d", "u", "n", "m1", .text, 1, none, false, none⟩,
   ⟨"b", "d", "u", "n", "m2", .text, 2, none, false, none⟩,
   ⟨"c", "d", "u", "n", "m3", .text, 3, none, false, none⟩]

/-- Witness for C5: three appends at limit 2 keep ids b and c, and the
evicted id a stays fetchable with its own ttl. -/
theorem c5_trim_eviction_witness :
    lookupListD (msC5.foldl (save_message_to_redis sC5) emptyWorld)
      (listKey "d") = (msC5.map (fun m => m.id)).drop 1 ∧
    (lookupListD (msC5.foldl (save_message_to_redis sC5) emptyWorld)
      (listKey "d")).length = sC5.message_history_limit ∧
    alookup (msC5.foldl (save_message_to_redis sC5) emptyWorld).hashes
      (messageKey "d" (⟨"a", "d", "u", "n", "m1", .text, 1, none, false,
        none⟩ : ChatMessage).id) =
      some (⟨"a", "d", "u", "n", "m1", .text, 1, none, false,
        none⟩ : ChatMessage).to_dict ∧
    alookup (msC5.foldl (save_message_to_redis sC5) emptyWorld).ttls
      (messageKey "d" (⟨"a", "d", "u", "n", "m1", .text, 1, none, false,
        none⟩ : ChatMessage).id) = some (30 * 24 * 60 * 60) :=
  c5_trim_eviction sC5 "d" msC5
    ⟨"a", "d", "u", "n", "m1", .text, 1, none, false, none⟩ emptyWorld
    (by decide) (by decide) (by decide) (by decide) (by decide)
    (by decide) (by decide)

/-! ### Presence store lemmas -/

/-- ConnectedUser.to_dict has pairwise distinct field names. -/
theorem cu_to_dict_keys_nodup (cu : ConnectedUser) :
    ((ConnectedUser.to_dict cu).map Prod.fst).Nodup := by
  unfold ConnectedUser.to_dict
  cases cu.socket_id <;> simp

/-- sadd puts the member in the set. -/
theorem saddW_mem (w : World) (k m : String) :
    m ∈ smembersW (saddW w k m) k := by
  unfold saddW
  by_cases h : m ∈ smembersW w k
  · rw [if_pos h]; exact h
  · rw [if_neg h]
    unfold smembersW
    simp only [alookup_aset_self, Option.getD_some]
    exact List.mem_append_right _ (by simp)

/-- sadd leaves the hashes untouched. -/
theorem saddW_hashes (w : World) (k m : String) :
    (saddW w k m).hashes = w.hashes := by
  unfold saddW
  by_cases h : m ∈ smembersW w k <;> simp [h]

/-- Membership after srem: the member survives only if it differs from the
removed one and was already a member. -/
theorem sremW_mem (w : World) (k m uid : String)
    (h : uid ∈ smembersW (sremW w k m) k) :
    uid ≠ m ∧ uid ∈ smembersW w k := by
  unfold sremW at h
  cases hs : alookup w.sets k with
  | none =>
      rw [hs] at h
      exact ⟨by
        intro hcon
        exact absurd h (by unfold smembersW; rw [hs]; simp), by
        unfold smembersW at h ⊢
        rw [hs] at h ⊢
        exact h⟩
  | some old =>
      rw [hs] at h
      unfold smembersW at h
      simp only [alookup_aset_self, Option.getD_some] at h
      have h1 := List.of_mem_filter h
      have h2 := List.mem_of_mem_filter h
      simp only [ne_eq, decide_not, Bool.not_eq_eq_eq_not, Bool.not_true,
        decide_eq_false_iff_not] at h1
      exact ⟨h1, by unfold smembersW; rw [hs]; exact h2⟩

/-- The C9 theorem support: after a put on a fresh hash key, the presence
hash holds exactly to_dict. -/
theorem save_user_hash (w : World) (cu : ConnectedUser)
    (hfresh : alookup w.hashes (userKey cu.dashboard_id cu.user_id) = none) :
    alookup (save_connected_user_to_redis w cu).hashes
      (userKey cu.dashboard_id cu.user_id) = some cu.to_dict := by
  unfold save_connected_user_to_redis
  rw [expireW_hashes, saddW_hashes]
  unfold hsetW
  simp only [hfresh, Option.getD_none]
  rw [alookup_aset_self, foldl_aset_nodup _ (cu_to_dict_keys_nodup cu)]

/-- C9: after PresenceStore.put (a save on a fresh presence key) the user
appears in list(room); after PresenceStore.remove, under the natural
consistency assumption that every stored presence hash names its own set
member, the user no longer appears in list(room); and list resolves the
set members one by one, silently skipping members whose hash is missing or
unparsable (the filterMap characterization). -/
theorem c9_presence (w : World) (cu : ConnectedUser) (defTs : Rat)
    (hfresh : alookup w.hashes (userKey cu.dashboard_id cu.user_id) = none) :
    (∃ v ∈ get_connected_users_from_redis
        (save_connected_user_to_redis w cu) cu.dashboard_id defTs,
      v.user_id = cu.user_id) ∧
    (∀ d u, (∀ uid ∈ smembersW w (connectedSetKey d), ∀ v,
        resolveUser w d defTs uid = some v → v.user_id = uid) →
      ∀ v ∈ get_connected_users_from_redis
        (remove_user_from_redis w d u) d defTs, v.user_id ≠ u) ∧
    (∀ d, get_connected_users_from_redis w d defTs =
      (smembersW w (connectedSetKey d)).filterMap
        (resolveUser w d defTs)) := by
  refine ⟨?_, ?_, fun d => rfl⟩
  · refine ⟨cu, ?_, rfl⟩
    unfold get_connected_users_from_redis
    rw [List.mem_filterMap]
    refine ⟨cu.user_id, ?_, ?_⟩
    · show cu.user_id ∈ smembersW (expireW (saddW (hsetW w
        (userKey cu.dashboard_id cu.user_id) cu.to_dict)
        (connectedSetKey cu.dashboard_id) cu.user_id)
        (userKey cu.dashboard_id cu.user_id) (60 * 60)) _
      unfold smembersW
      rw [expireW_sets]
      exact saddW_mem _ _ _
    · unfold resolveUser hgetallW
      rw [save_user_hash w cu hfresh]
      simp only [Option.getD_some]
      rw [if_neg (by cases hsid : cu.socket_id <;>
        simp [ConnectedUser.to_dict])]
      exact connectedUser_from_to defTs cu
  · intro d u hcons v hv
    unfold get_connected_users_from_redis at hv
    rw [List.mem_filterMap] at hv
    obtain ⟨uid, huid, hres⟩ := hv
    unfold remove_user_from_redis at huid hres
    have hmem := sremW_mem _ _ _ _ huid
    have huid_ne : uid ≠ u := hmem.1
    have huid_w : uid ∈ smembersW w (connectedSetKey d) := by
      have h2 := hmem.2
      unfold smembersW at h2 ⊢
      cases hk : alookup (redisDel w (userKey d u)).1.sets
          (connectedSetKey d) with
      | none => rw [hk] at h2; exact absurd h2 (by simp)
      | some v2 =>
          rw [hk] at h2
          have := alookup_aerase_some _ _ _ _ hk
          rw [this]
          exact h2
    have hres_w : resolveUser w d defTs uid = some v := by
      unfold resolveUser hgetallW at hres ⊢
      cases hh : alookup (sremW (redisDel w (userKey d u)).1
          (connectedSetKey d) u).hashes (userKey d uid) with
      | none => rw [hh] at hres; simp at hres
      | some dct =>
          rw [hh] at hres
          have hh2 : alookup (redisDel w (userKey d u)).1.hashes
              (userKey d uid) = some dct := by
            rw [← sremW_hashes (redisDel w (userKey d u)).1
              (connectedSetKey d) u]
            exact hh
          have hh3 : alookup w.hashes (userKey d uid) = some dct :=
            alookup_aerase_some _ _ _ _ hh2
          rw [hh3]
          exact hres
    have := hcons uid huid_w v hres_w
    rw [this]
    exact huid_ne

/-- The concrete presence world for the C9 witness. -/
def cuC9 : ConnectedUser := ⟨"u1", "d1", "alice", .online, 0, 0, none⟩

/-- A second user whose presence key is fresh in the witness world. -/
def cuC9b : ConnectedUser := ⟨"u2", "d2", "bob", .online, 0, 0, none⟩

/-- Witness for C9 at a concrete world: put then list includes the user;
remove on a world holding that user then list excludes the user. -/
theorem c9_presence_witness :
    (∃ v ∈ get_connected_users_from_redis
        (save_connected_user_to_redis emptyWorld cuC9) cuC9.dashboard_id 0,
      v.user_id = cuC9.user_id) ∧
    (∀ v ∈ get_connected_users_from_redis
        (remove_user_from_redis
          (save_connected_user_to_redis emptyWorld cuC9) "d1" "u1") "d1" 0,
      v.user_id ≠ "u1") := by
  have h0 := c9_presence emptyWorld cuC9 0 (by decide)
  refine ⟨h0.1, ?_⟩
  have h2 := (c9_presence (save_connected_user_to_redis emptyWorld cuC9)
    cuC9b 0 (by decide)).2.1 "d1" "u1" (by decide)
  exact h2

/-! ### Clearing a room -/

theorem keyExists_redisDel_ne (w : World) (k k' : String) (h : k' ≠ k) :
    keyExists (redisDel w k).1 k' = keyExists w k' := by
  unfold keyExists
  rw [show (redisDel w k).1.hashes = aerase w.hashes k from rfl,
    show (redisDel w k).1.lists = aerase w.lists k from rfl,
    show (redisDel w k).1.sets = aerase w.sets k from rfl]
  rw [alookup_aerase_ne _ _ _ h, alookup_aerase_ne _ _ _ h,
    alookup_aerase_ne _ _ _ h]

/-- The deletion loop of clear_all_messages: under pairwise-distinct keys,
the returned count is the number of listed ids whose key exists. -/
theorem clear_fold_count (d : String) :
    ∀ (ids : List String) (w : World) (acc : Nat),
      ((ids.map (fun i => messageKey d i)).Nodup) →
      (ids.foldl (fun (a : World × Nat) msgId =>
        ((redisDel a.1 (messageKey d msgId)).1,
         a.2 + (redisDel a.1 (messageKey d msgId)).2)) (w, acc)).2 =
      acc + (ids.filter (fun i => keyExists w (messageKey d i))).length := by
  intro ids
  induction ids with
  | nil => intro w acc _; simp
  | cons i tl ih =>
      intro w acc hnodup
      simp only [List.map_cons, List.nodup_cons] at hnodup
      have hcongr : tl.filter
          (fun j => keyExists (redisDel w (messageKey d i)).1
            (messageKey d j)) =
          tl.filter (fun j => keyExists w (messageKey d j)) := by
        apply List.filter_congr
        intro j hj
        have hne : messageKey d j ≠ messageKey d i := by
          intro hcon
          exact hnodup.1 (hcon ▸ List.mem_map_of_mem _ hj)
        rw [keyExists_redisDel_ne _ _ _ hne]
      simp only [List.foldl_cons]
      rw [ih (redisDel w (messageKey d i)).1
        (acc + (redisDel w (messageKey d i)).2) hnodup.2]
      rw [hcongr]
      show acc + (if keyExists w (messageKey d i) then 1 else 0) + _ = _
      by_cases hk : keyExists w (messageKey d i) = true
      · simp [List.filter_cons, hk]
        omega
      · simp [List.filter_cons, hk]

/-- The deletion loop never resurrects an absent hash key. -/
theorem clear_fold_hash_none (d : String) :
    ∀ (ids : List String) (w : World) (acc : Nat) (k : String),
      alookup w.hashes k = none →
      alookup ((ids.foldl (fun (a : World × Nat) msgId =>
        ((redisDel a.1 (messageKey d msgId)).1,
         a.2 + (redisDel a.1 (messageKey d msgId)).2)) (w, acc)).1).hashes k
        = none := by
  intro ids
  induction ids with
  | nil => intro w acc k h; exact h
  | cons i tl ih =>
      intro w acc k h
      simp only [List.foldl_cons]
      exact ih _ _ k (alookup_aerase_none _ _ _ h)

/-- The deletion loop removes every listed key. -/
theorem clear_fold_hash_absent (d : String) :
    ∀ (ids : List String) (w : World) (acc : Nat) (i : String), i ∈ ids →
      alookup ((ids.foldl (fun (a : World × Nat) msgId =>
        ((redisDel a.1 (messageKey d msgId)).1,
         a.2 + (redisDel a.1 (messageKey d msgId)).2)) (w, acc)).1).hashes
        (messageKey d i) = none := by
  intro ids
  induction ids with
  | nil => intro w acc i hi; exact absurd hi (List.not_mem_nil i)
  | cons j tl ih =>
      intro w acc i hi
      simp only [List.foldl_cons]
      rcases List.mem_cons.mp hi with heq | hi'
      · subst heq
        exact clear_fold_hash_none d tl _ _ _ (alookup_aerase_self _ _)
      · exact ih _ _ i hi'

/-- A history read for a room whose list key is absent returns nothing. -/
theorem get_messages_empty (w : World) (d : String) (limit skip : Int)
    (defId : String) (defTs : Rat)
    (h : alookup w.lists (listKey d) = none) :
    get_messages_from_redis w d limit skip defId defTs = [] := by
  unfold get_messages_from_redis lrangeW lookupListD
  rw [h]
  simp [redisSlice_nil]

/-- C7: clear deletes every message hash still resolvable via the room id
list and then the list key itself, returning exactly the number of listed
keys that actually existed (already-expired entries are skipped and not
counted), and a history read immediately after clear returns the empty
sequence. -/
theorem c7_clear (w : World) (d : String)
    (hnodup : ((lookupListD w (listKey d)).map
      (fun i => messageKey d i)).Nodup) :
    (clear_all_messages w d).2 =
      ((lookupListD w (listKey d)).filter
        (fun i => keyExists w (messageKey d i))).length ∧
    (∀ i ∈ lookupListD w (listKey d),
      alookup (clear_all_messages w d).1.hashes (messageKey d i) = none) ∧
    alookup (clear_all_messages w d).1.lists (listKey d) = none ∧
    (∀ limit skip defId defTs,
      get_messages_from_redis (clear_all_messages w d).1 d limit skip
        defId defTs = []) := by
  have hids : lrangeW w (listKey d) 0 (-1) = lookupListD w (listKey d) := by
    unfold lrangeW; exact redisSlice_all _
  have hcount : (clear_all_messages w d).2 =
      ((lookupListD w (listKey d)).filter
        (fun i => keyExists w (messageKey d i))).length := by
    show ((lrangeW w (listKey d) 0 (-1)).foldl
      (fun (a : World × Nat) msgId =>
        ((redisDel a.1 (messageKey d msgId)).1,
         a.2 + (redisDel a.1 (messageKey d msgId)).2)) (w, 0)).2 = _
    rw [hids]
    rw [clear_fold_count d (lookupListD w (listKey d)) w 0 hnodup]
    simp
  have hfold_absent : ∀ i ∈ lookupListD w (listKey d),
      alookup ((lrangeW w (listKey d) 0 (-1)).foldl
        (fun (a : World × Nat) msgId =>
          ((redisDel a.1 (messageKey d msgId)).1,
           a.2 + (redisDel a.1 (messageKey d msgId)).2)) (w, 0)).1.hashes
        (messageKey d i) = none := by
    intro i hi
    rw [hids]
    exact clear_fold_hash_absent d _ w 0 i hi
  have hw1 : ∃ w2, (clear_all_messages w d).1 = broadcast_to_dashboard w2 d
      (Payload.messagesCleared d (clear_all_messages w d).2 w2.clock) none ∧
      alookup w2.lists (listKey d) = none ∧
      (∀ i ∈ lookupListD w (listKey d),
        alookup w2.hashes (messageKey d i) = none) := by
    refine ⟨(redisDel ((lrangeW w (listKey d) 0 (-1)).foldl
      (fun (a : World × Nat) msgId =>
        ((redisDel a.1 (messageKey d msgId)).1,
         a.2 + (redisDel a.1 (messageKey d msgId)).2)) (w, 0)).1
      (listKey d)).1, rfl, ?_, ?_⟩
    · exact alookup_aerase_self _ _
    · intro i hi
      exact alookup_aerase_none _ _ _ (hfold_absent i hi)
  obtain ⟨w2, he, hl, hh⟩ := hw1
  refine ⟨hcount, ?_, ?_, ?_⟩
  · intro i hi
    rw [he]
    exact (broadcast_to_dashboard_shrinks _ _ _ _).hash_none _ (hh i hi)
  · rw [he]
    exact (broadcast_to_dashboard_shrinks _ _ _ _).list_none _ hl
  · intro limit skip defId defTs
    apply get_messages_empty
    rw [he]
    exact (broadcast_to_dashboard_shrinks _ _ _ _).list_none _ hl

/-- A room with ten listed messages of which two hashes already expired,
for the C7 witness. -/
def wC7 : World :=
  { emptyWorld with
    lists := [("messages:d", ["m1", "m2", "m3", "m4", "m5", "m6", "m7",
      "m8", "m9", "m10"])],
    hashes := [("message:d:m1", [("id", .vstr "m1")]),
               ("message:d:m2", [("id", .vstr "m2")]),
               ("message:d:m4", [("id", .vstr "m4")]),
               ("message:d:m5", [("id", .vstr "m5")]),
               ("message:d:m6", [("id", .vstr "m6")]),
               ("message:d:m8", [("id", .vstr "m8")]),
               ("message:d:m9", [("id", .vstr "m9")]),
               ("message:d:m10", [("id", .vstr "m10")])] }

/-- Witness for C7: clearing the ten-message room with two expired hashes
returns a cleared count of 8 (the filter length evaluates to 8) and the
subsequent history read is empty. -/
theorem c7_clear_witness :
    ((clear_all_messages wC7 "d").2 =
      ((lookupListD wC7 (listKey "d")).filter
        (fun i => keyExists wC7 (messageKey "d" i))).length ∧
      ((lookupListD wC7 (listKey "d")).filter
        (fun i => keyExists wC7 (messageKey "d" i))).length = 8) ∧
    get_messages_from_redis (clear_all_messages wC7 "d").1 "d" 50 0 "x" 0
      = [] := by
  have h := c7_clear wC7 "d" (by decide)
  exact ⟨⟨h.1, by decide⟩, h.2.2.2 50 0 "x" 0⟩

/-- C8: a chat_message broadcast excludes nobody, so a sender with a live
registered transport receives their own message back; a typing broadcast
excludes the sender (whose nonempty user id only maps to their own handle),
so the sender never receives their own typing event; and the loop passes
is_typing through with default false when the field is absent. -/
theorem c8_exclusion (w : World) :
    (∀ (m : ChatMessage) (conns : List (String × Nat)) (c : Nat),
      alookup w.active m.dashboard_id = some conns →
      (m.user_id, c) ∈ conns → c ∉ w.closed →
      (c, chatPayload m) ∈ (broadcast_message w m).sent) ∧
    (∀ (d u n : String) (t : Bool) (conns : List (String × Nat)) (c : Nat),
      alookup w.active d = some conns →
      u ≠ "" → (∀ u', (u', c) ∈ conns → u' = u) →
      (c, Payload.typing u n t w.clock) ∉ w.sent →
      (c, Payload.typing u n t w.clock) ∉ (broadcast_typing w d u n t).sent) ∧
    (∀ (s : Settings) (ws : Nat) (d u n : String) (fd : FrameData)
      (rest : List InFrame), fd.is_typing = none →
      wsLoop s ws d u n w (InFrame.frame (some "typing") fd :: rest) =
        wsLoop s ws d u n (broadcast_typing w d u n false) rest) := by
  refine ⟨?_, ?_, ?_⟩
  · intro m conns c ha hmem hop
    show (c, chatPayload m) ∈ (broadcastWith
      (fun a x => disconnectF (enoughFuel w) a x) w m.dashboard_id
      (chatPayload m) none).sent
    unfold broadcastWith
    rw [ha]
    exact (shrinks_foldl (fun a x => disconnectF_shrinks (enoughFuel w) a x)
      _ _).sent_mono _
      (sendLoop_delivers (chatPayload m) none conns w m.user_id c hmem rfl hop)
  · intro d u n t conns c ha hu hall hnot hmem
    have hmem' : (c, Payload.typing u n t w.clock) ∈ (broadcastWith
        (fun a x => disconnectF (enoughFuel w) a x) w d
        (Payload.typing u n t w.clock) (some u)).sent := hmem
    unfold broadcastWith at hmem'
    rw [ha] at hmem'
    rcases foldl_sent_additions
      (fun a x p hp => disconnectF_sent_additions (enoughFuel w) a x p hp)
      _ _ _ hmem' with h | h
    · have hexcl : ∀ u', (u', c) ∈ conns →
          excludedBy (some u) u' = true := by
        intro u' hmem2
        rw [hall u' hmem2]
        show (if u = "" then false else decide (u = u)) = true
        rw [if_neg hu]
        simp
      exact hnot (sendLoop_excluded_not_sent _ _ conns w c _ hexcl h)
    · obtain ⟨n', ts', heq⟩ := h
      cases heq
  · intro s ws d u n fd rest hfd
    simp [wsLoop, hfd]

/-- The concrete world for the C8 witness: alice (handle 1) and bob
(handle 2) are connected to room d1 with live transports. -/
def wC8 : World :=
  { emptyWorld with
    active := [("d1", [("ua", 1), ("ub", 2)])],
    info := [(1, ⟨"d1", "ua", "alice"⟩), (2, ⟨"d1", "ub", "bob"⟩)] }

/-- The concrete chat message of the C8 witness. -/
def mC8 : ChatMessage :=
  ⟨"m1", "d1", "ua", "alice", "hi", .text, 0, none, false, none⟩

/-- Witness for C8: alice receives her own chat message back; alice does
not receive her own typing event; is_typing defaults to false. -/
theorem c8_exclusion_witness :
    (1, chatPayload mC8) ∈ (broadcast_message wC8 mC8).sent ∧
    (1, Payload.typing "ua" "alice" true wC8.clock) ∉
      (broadcast_typing wC8 "d1" "ua" "alice" true).sent ∧
    wsLoop defaultSettings 1 "d1" "ua" "alice" wC8
        [InFrame.frame (some "typing") ⟨none, none, none, none, none⟩] =
      wsLoop defaultSettings 1 "d1" "ua" "alice"
        (broadcast_typing wC8 "d1" "ua" "alice" false) [] := by
  have h := c8_exclusion wC8
  refine ⟨?_, ?_, ?_⟩
  · exact h.1 mC8 [("ua", 1), ("ub", 2)] 1 (by decide) (by decide) (by decide)
  · exact h.2.1 "d1" "ua" "alice" true [("ua", 1), ("ub", 2)] 1 (by decide)
      (by decide) (by intro u' hmem; simp at hmem; exact hmem) (by decide)
  · exact h.2.2 defaultSettings 1 "d1" "ua" "alice"
      ⟨none, none, none, none, none⟩ [] (by decide)

/-- C2: for every broadcast to a room, delivery is attempted independently
for each registered recipient: every non-excluded recipient with a live
transport receives the payload even when other transports fail, and every
non-excluded recipient whose transport fails is afterwards unregistered
from the registry (reverse lookup gone and its recorded (room, user) slot
emptied), has its presence hash and set membership removed, and a
user_left notification is issued for it.  The broadcast itself catches
every send error per recipient, so no exception escapes to the caller
(the engine is a total function by construction). -/
theorem c2_failure_isolation (w : World) (d : String) (msg : Payload)
    (ex : Option String) (conns : List (String × Nat))
    (hc : alookup w.active d = some conns) :
    (∀ u c, (u, c) ∈ conns → excludedBy ex u = false → c ∉ w.closed →
      (c, msg) ∈ (broadcast_to_dashboard w d msg ex).sent) ∧
    (∀ u c ci, (u, c) ∈ conns → excludedBy ex u = false → c ∈ w.closed →
      alookup w.info c = some ci →
      alookup (broadcast_to_dashboard w d msg ex).info c = none ∧
      lookupConn (broadcast_to_dashboard w d msg ex)
        ci.dashboard_id ci.user_id = none ∧
      alookup (broadcast_to_dashboard w d msg ex).hashes
        (userKey ci.dashboard_id ci.user_id) = none ∧
      ci.user_id ∉ smembersW (broadcast_to_dashboard w d msg ex)
        (connectedSetKey ci.dashboard_id) ∧
      (ci.dashboard_id, ci.username) ∈
        (broadcast_to_dashboard w d msg ex).leftLog) := by
  constructor
  · intro u c hmem hex hop
    show (c, msg) ∈ (broadcastWith
      (fun a x => disconnectF (enoughFuel w) a x) w d msg ex).sent
    unfold broadcastWith
    rw [hc]
    exact (shrinks_foldl (fun a x => disconnectF_shrinks (enoughFuel w) a x)
      _ _).sent_mono _ (sendLoop_delivers msg ex conns w u c hmem hex hop)
  · intro u c ci hmem hex hcl hinfo
    have hfail : c ∈ (sendLoop w msg ex conns).2 :=
      sendLoop_fails msg ex conns w u c hmem hex hcl
    have hinfo1 : alookup (sendLoop w msg ex conns).1.info c = some ci := by
      rw [(sendLoop_fields msg ex conns w).2.1]
      exact hinfo
    have hcl2 : Cleaned (broadcastWith
        (fun a x => disconnectF (enoughFuel w) a x) w d msg ex) c ci := by
      unfold broadcastWith
      rw [hc]
      exact foldl_disconnect_cleans (w.info.length + 1)
        (sendLoop w msg ex conns).2 (sendLoop w msg ex conns).1 c ci hfail
        (Or.inl hinfo1)
    exact ⟨hcl2.1, hcl2.2.1, hcl2.2.2.1, hcl2.2.2.2.1, hcl2.2.2.2.2⟩

/-- The C2 witness world: room d1 has a single connection (handle 9, user
u1, alice) whose transport is already closed, with its presence record in
the store. -/
def wC2 : World :=
  { emptyWorld with
    active := [("d1", [("u1", 9)])],
    info := [(9, ⟨"d1", "u1", "alice"⟩)],
    hashes := [("user:d1:u1", [("user_id", .vstr "u1")])],
    sets := [("connected_users:d1", ["u1"])],
    closed := [9] }

/-- Witness for C2: broadcasting to the room with the closed connection
unregisters it, removes its presence, and issues a user_left
notification; no exception reaches the caller (the call returns a world). -/
theorem c2_failure_isolation_witness :
    alookup (broadcast_to_dashboard wC2 "d1"
      (Payload.userJoined "x" 0) none).info 9 = none ∧
    lookupConn (broadcast_to_dashboard wC2 "d1"
      (Payload.userJoined "x" 0) none) "d1" "u1" = none ∧
    alookup (broadcast_to_dashboard wC2 "d1"
      (Payload.userJoined "x" 0) none).hashes (userKey "d1" "u1") = none ∧
    "u1" ∉ smembersW (broadcast_to_dashboard wC2 "d1"
      (Payload.userJoined "x" 0) none) (connectedSetKey "d1") ∧
    ("d1", "alice") ∈ (broadcast_to_dashboard wC2 "d1"
      (Payload.userJoined "x" 0) none).leftLog :=
  (c2_failure_isolation wC2 "d1" (Payload.userJoined "x" 0) none
    [("u1", 9)] (by decide)).2 "u1" 9 ⟨"d1", "u1", "alice"⟩
    (by decide) (by decide) (by decide) (by decide)
